import Mathlib

/-!
Verification of the `generate-locale` repository (src/generate-locale.mjs,
src/sync-structure.mjs and the unnamed variant).

Shallow embedding conventions:

* A JavaScript value is modelled by `JV` below: `null`, `undefined` (also
  used for array holes and absent properties, matching the `=== undefined`
  and `== null` tests in the source), strings, numbers (as `Int`; the
  sources never do arithmetic on cell values), booleans, arrays as Lean
  lists, and objects as insertion-ordered association lists.  Exotic
  JavaScript object features (prototype chains, `length` properties of
  strings/arrays, the engine's special ordering of integer-like keys) are
  outside the Document Tree model of this program and are not modelled;
  named properties assigned onto arrays are invisible to the YAML
  serialization the program produces and are modelled as dropped.
* The sources mutate trees through aliased references.  All mutation in
  `setDeep`/`ensureContainer` happens along the single walked path, so the
  functional rebuild below is observationally equal.  When `setDeep`
  throws, the source has not yet mutated the tree (every mutation creates
  a fresh container aligned with the next step, after which no further
  step can throw), so returning `Except.error` without a partial tree is
  faithful.
* `reorderLike` in the source appends paths to a caller-supplied `stats`
  object.  The embedding returns the list of paths appended by the call
  itself (the caller's lists being unchanged prefixes); `Stats` holds the
  two lists in push order.
-/

inductive JV where
  | null : JV
  | undef : JV
  | str : String → JV
  | num : Int → JV
  | bool : Bool → JV
  | arr : List JV → JV
  | obj : List (String × JV) → JV
  deriving Repr

namespace JV

mutual

def beq : JV → JV → Bool
  | .null, .null => true
  | .undef, .undef => true
  | .str s, .str t => s = t
  | .num a, .num b => a = b
  | .bool a, .bool b => a = b
  | .arr xs, .arr ys => beqArr xs ys
  | .obj fs, .obj gs => beqObj fs gs
  | _, _ => false

def beqArr : List JV → List JV → Bool
  | [], [] => true
  | x :: xs, y :: ys => beq x y && beqArr xs ys
  | _, _ => false

def beqObj : List (String × JV) → List (String × JV) → Bool
  | [], [] => true
  | (k, v) :: fs, (l, w) :: gs => k = l && beq v w && beqObj fs gs
  | _, _ => false

end

mutual

theorem beq_iff : ∀ a b : JV, beq a b = true ↔ a = b
  | .null, b => by cases b <;> simp [beq]
  | .undef, b => by cases b <;> simp [beq]
  | .str s, b => by cases b <;> simp [beq]
  | .num n, b => by cases b <;> simp [beq]
  | .bool v, b => by cases b <;> simp [beq]
  | .arr xs, b => by
      cases b <;> simp [beq]
      exact beqArr_iff xs _
  | .obj fs, b => by
      cases b <;> simp [beq]
      exact beqObj_iff fs _

theorem beqArr_iff : ∀ xs ys : List JV, beqArr xs ys = true ↔ xs = ys
  | [], ys => by cases ys <;> simp [beqArr]
  | x :: xs, ys => by
      cases ys with
      | nil => simp [beqArr]
      | cons y ys => simp [beqArr, beq_iff x y, beqArr_iff xs ys]

theorem beqObj_iff : ∀ fs gs : List (String × JV), beqObj fs gs = true ↔ fs = gs
  | [], gs => by cases gs <;> simp [beqObj]
  | (k, v) :: fs, gs => by
      cases gs with
      | nil => simp [beqObj]
      | cons g gs =>
          obtain ⟨l, w⟩ := g
          simp [beqObj, beq_iff v w, beqObj_iff fs gs, and_assoc]

end

instance : DecidableEq JV := fun a b =>
  decidable_of_iff (beq a b = true) (beq_iff a b)

/-- Embeds `isObject` from both source files: `v != null && typeof v === "object"
    && !Array.isArray(v)`. -/
def isObject : JV → Bool
  | .obj _ => true
  | _ => false

/-- Embeds `Array.isArray`. -/
def isArrV : JV → Bool
  | .arr _ => true
  | _ => false

/-- A reference node is treated as a container by `reorderLike` when
    `isObject(v) || Array.isArray(v)`. -/
def isContainer (v : JV) : Bool := v.isObject || v.isArrV

/-- Embeds `Array.isArray(tgtNode) ? tgtNode : []` — the element list `reorderLike`
    iterates when the reference is an array (sync-structure.mjs line 73). -/
def asArr : JV → List JV
  | .arr xs => xs
  | _ => []

/-- Embeds `isObject(tgtNode) ? tgtNode : {}` — the field list `reorderLike` uses
    when the reference is an object (sync-structure.mjs line 115). -/
def asObj : JV → List (String × JV)
  | .obj fs => fs
  | _ => []

end JV

/-- Embeds `k in obj` for a plain data object. -/
def hasKey (fs : List (String × JV)) (k : String) : Bool :=
  fs.any (fun kv => kv.1 = k)

/-- Embeds `obj[k]`: property read, `undefined` when the key is absent. -/
def lookupD (fs : List (String × JV)) (k : String) : JV :=
  match fs.find? (fun kv => kv.1 = k) with
  | some kv => kv.2
  | none => (.undef)

/-- Embeds `arr[i]`: element read, `undefined` beyond the length (holes are stored
    as `.undef` elements, which the same read yields). -/
def elemD (xs : List JV) (i : Nat) : JV := xs.getD i (.undef)

/-- Embeds `keyPath ? keyPath + "." + k : k` (sync-structure.mjs lines 121/148). -/
def joinKey (keyPath k : String) : String :=
  if keyPath = "" then k else keyPath ++ "." ++ k

/-- Embeds `keyPath + "[" + i + "]"` (sync-structure.mjs line 82). -/
def joinIdx (keyPath : String) (i : Nat) : String :=
  keyPath ++ "[" ++ toString i ++ "]"

/-- The missing/extra path lists accumulated by `reorderLike`.  The
    embedding returns the paths appended by each call (the source pushes
    onto a shared `stats` object; callers' earlier entries are unchanged
    prefixes). -/
structure Stats where
  missing : List String
  extra : List String
  deriving DecidableEq, Repr

/-- Embeds `missingLeaf` (sync-structure.mjs lines 59-66), parametrized by the
    `--missing` mode string exactly as the source compares it: `"null"`
    gives null, `"ref"` copies the reference leaf, and every other mode
    (the default `"empty"`, but also any unrecognized string) gives the
    empty string — both branches of lines 63-65 return `""`. -/
def missingLeaf (mode : String) (refLeaf : JV) : JV :=
  if mode = "null" then .null
  else if mode = "ref" then refLeaf
  else .str ""

theorem one_le_sizeOf_list {A : Type} [SizeOf A] (l : List A) :
    1 <= sizeOf l := by
  cases l <;> simp <;> omega

theorem sizeOf_lookupD_le (fs : List (String × JV)) (k : String) :
    sizeOf (lookupD fs k) ≤ sizeOf fs := by
  induction fs with
  | nil => simp [lookupD]
  | cons kv rest ih =>
      obtain ⟨a, b⟩ := kv
      by_cases h : a = k
      · simp [lookupD, List.find?, h]
        omega
      · simp only [lookupD, List.find?] at ih ⊢
        simp [h]
        rcases hf : List.find? (fun kv => decide (kv.1 = k)) rest with _ | kv2
        · simp [hf] at ih ⊢
          omega
        · simp [hf] at ih ⊢
          omega

theorem sizeOf_asArr_le (v : JV) : sizeOf (JV.asArr v) ≤ sizeOf v := by
  cases v <;> simp [JV.asArr] <;> omega

theorem sizeOf_asObj_le (v : JV) : sizeOf (JV.asObj v) ≤ sizeOf v := by
  cases v <;> simp [JV.asObj] <;> omega

mutual

/-- Embeds `reorderLike` (sync-structure.mjs lines 69-162): merge + reorder the
    target against the reference.  Returns the new tree and the
    missing/extra paths this call appends, in push order. -/
def reorderLike (mode : String) (refNode tgtNode : JV) (keyPath : String) :
    JV × Stats :=
  match refNode with
  | .arr refArr =>
      let r := reorderArrLoop mode refArr (JV.asArr tgtNode) keyPath 0
      (.arr r.1, r.2)
  | .obj refFs =>
      let tgtFs := JV.asObj tgtNode
      let r := reorderObjRefLoop mode refFs tgtFs keyPath
      let extras := tgtFs.filter (fun kv => !(hasKey refFs kv.1))
      (.obj (r.1 ++ extras),
       ⟨r.2.missing, r.2.extra ++ extras.map (fun kv => joinKey keyPath kv.1)⟩)
  | refLeaf =>
      if tgtNode = .undef then
        (missingLeaf mode refLeaf,
         ⟨[if keyPath = "" then "(root)" else keyPath], []⟩)
      else (tgtNode, ⟨[], []⟩)
termination_by sizeOf refNode + sizeOf tgtNode + 1
decreasing_by
  all_goals simp_wf
  · have := sizeOf_asArr_le tgtNode; omega
  · have := sizeOf_asObj_le tgtNode; omega

/-- The `for (let i = 0; i < maxLen; i++)` loop of the array branch
    (sync-structure.mjs lines 78-108), walking both element lists; an
    exhausted side reads as `undefined`, matching `arr[i] === undefined`. -/
def reorderArrLoop (mode : String) (refArr tgtArr : List JV)
    (keyPath : String) (i : Nat) : List JV × Stats :=
  match refArr, tgtArr with
  | [], [] => ([], ⟨[], []⟩)
  | [], t :: ts =>
      let p := joinIdx keyPath i
      let r := reorderArrLoop mode [] ts keyPath (i + 1)
      if t = .undef then
        -- both sides read undefined: the `tgtVal === undefined` branch,
        -- reference value undefined is not a container
        (missingLeaf mode .undef :: r.1, ⟨p :: r.2.missing, r.2.extra⟩)
      else
        -- target has extra elements beyond ref (lines 84-89)
        (t :: r.1, ⟨r.2.missing, p :: r.2.extra⟩)
  | rv :: rs, [] =>
      let p := joinIdx keyPath i
      let r := reorderArrLoop mode rs [] keyPath (i + 1)
      -- missing element (lines 91-100)
      if rv.isContainer then
        let c := reorderLike mode rv .undef p
        (c.1 :: r.1,
         ⟨c.2.missing ++ p :: r.2.missing, c.2.extra ++ r.2.extra⟩)
      else
        (missingLeaf mode rv :: r.1, ⟨p :: r.2.missing, r.2.extra⟩)
  | rv :: rs, t :: ts =>
      let p := joinIdx keyPath i
      let r := reorderArrLoop mode rs ts keyPath (i + 1)
      if rv = .undef && !(t = .undef) then
        -- target has extra elements beyond ref (a hole in the reference)
        (t :: r.1, ⟨r.2.missing, p :: r.2.extra⟩)
      else if t = .undef then
        if rv.isContainer then
          let c := reorderLike mode rv .undef p
          (c.1 :: r.1,
           ⟨c.2.missing ++ p :: r.2.missing, c.2.extra ++ r.2.extra⟩)
        else
          (missingLeaf mode rv :: r.1, ⟨p :: r.2.missing, r.2.extra⟩)
      else
        -- both exist (lines 102-107)
        if rv.isContainer then
          let c := reorderLike mode rv t p
          (c.1 :: r.1, ⟨c.2.missing ++ r.2.missing, c.2.extra ++ r.2.extra⟩)
        else
          (t :: r.1, r.2)
termination_by sizeOf refArr + sizeOf tgtArr
decreasing_by
  all_goals simp_wf
  all_goals try simp only [List.cons.sizeOf_spec, JV.undef.sizeOf_spec,
    List.nil.sizeOf_spec]
  all_goals first
    | (have h1 := one_le_sizeOf_list rs; omega)
    | (have h1 := one_le_sizeOf_list ts; omega)
    | omega

/-- Loop 1 of the object branch (sync-structure.mjs lines 120-143): keys in
    reference order. -/
def reorderObjRefLoop (mode : String) (refFs tgtFs : List (String × JV))
    (keyPath : String) : List (String × JV) × Stats :=
  match refFs with
  | [] => ([], ⟨[], []⟩)
  | (k, refVal) :: rest =>
      let p := joinKey keyPath k
      let r := reorderObjRefLoop mode rest tgtFs keyPath
      if hasKey tgtFs k then
        let tgtVal := lookupD tgtFs k
        if refVal.isContainer then
          let c := reorderLike mode refVal tgtVal p
          ((k, c.1) :: r.1,
           ⟨c.2.missing ++ r.2.missing, c.2.extra ++ r.2.extra⟩)
        else
          ((k, tgtVal) :: r.1, r.2)
      else
        -- missing in target (lines 123-133)
        if refVal.isContainer then
          let c := reorderLike mode refVal .undef p
          ((k, c.1) :: r.1,
           ⟨c.2.missing ++ p :: r.2.missing, c.2.extra ++ r.2.extra⟩)
        else
          ((k, missingLeaf mode refVal) :: r.1, ⟨p :: r.2.missing, r.2.extra⟩)
termination_by sizeOf refFs + sizeOf tgtFs
decreasing_by
  all_goals simp_wf
  all_goals try simp only [List.cons.sizeOf_spec, JV.undef.sizeOf_spec,
    List.nil.sizeOf_spec, Prod.mk.sizeOf_spec]
  all_goals first
    | (have h1 := sizeOf_lookupD_le tgtFs k
       have h2 := one_le_sizeOf_list rest; omega)
    | (have h2 := one_le_sizeOf_list rest; omega)
    | omega

end


/-! ## Key-path parser (generate-locale.mjs lines 34-43) -/

/-- One step of a parsed key path: a property name or a numeric index,
    matching the two alternatives of the regex
    `/([^.[]+)|\[(\d+)\]/g`. -/
inductive Tok where
  | prop : String → Tok
  | idx : Nat → Tok
  deriving DecidableEq, Repr

/-- Embeds `typeof t === "number"` for a parsed token. -/
def Tok.isIdx : Tok → Bool
  | .idx _ => true
  | .prop _ => false

/-- Embeds `Number` of a run of decimal digits. -/
def digitsToNat (ds : List Char) : Nat :=
  ds.foldl (fun a c => a * 10 + (c.toNat - 48)) 0

/-- A character a property run may contain: anything but `.` and `[`. -/
def propChar (c : Char) : Bool := !(c = '.' || c = '[')

/-- The scan loop of `parseKey`: repeated `re.exec` with the regex
    `/([^.[]+)|\[(\d+)\]/g`.  At each position: a character other than
    `.`/`[` starts a maximal property run; `[` followed by one or more
    digits and `]` is an index; otherwise the engine advances one
    position without emitting a token. -/
theorem length_dropWhile_le {A : Type} (p : A → Bool) (l : List A) :
    (l.dropWhile p).length ≤ l.length := by
  induction l with
  | nil => simp [List.dropWhile]
  | cons a l ih => by_cases h : p a <;> simp [List.dropWhile, h] <;> omega

def parseKeyAux (cs : List Char) : List Tok :=
  match cs with
  | [] => []
  | c :: rest =>
      if c = '.' then parseKeyAux rest
      else if c = '[' then
        match hb : rest.dropWhile Char.isDigit with
        | ']' :: after =>
            if rest.takeWhile Char.isDigit = [] then parseKeyAux rest
            else Tok.idx (digitsToNat (rest.takeWhile Char.isDigit)) ::
              parseKeyAux after
        | _ => parseKeyAux rest
      else
        -- c is neither `.` nor `[`, so the maximal property run is c
        -- followed by the run taken from the tail
        Tok.prop (String.mk (c :: rest.takeWhile propChar)) ::
          parseKeyAux (rest.dropWhile propChar)
termination_by cs.length
decreasing_by
  all_goals simp_wf
  all_goals first
    | omega
    | (have h1 := length_dropWhile_le Char.isDigit rest
       rw [hb] at h1
       simp at h1
       omega)
    | (have h1 := length_dropWhile_le propChar rest
       omega)

/-- Embeds `parseKey` (generate-locale.mjs lines 34-43). -/
def parseKey (key : String) : List Tok := parseKeyAux key.toList

/-! ## Deep structure builder (generate-locale.mjs lines 44-76) -/

/-- The two ways `setDeep` can throw: the explicit
    `Expected array while setting "..."` error (the key is interpolated
    into the message by the caller-visible string), and the strict-mode
    TypeError raised when a property is created on a primitive leaf. -/
inductive SetErr where
  | typeMismatch : SetErr
  | typeError : SetErr
  deriving DecidableEq, Repr

/-- Embeds `parent[prop] = v` / `arr[i] = v` on the final step (`cur[t] = value`,
    generate-locale.mjs line 61).  An index assigned into an object sets
    the decimal string key; writing past an array's end pads the gap with
    holes; named properties on arrays are invisible to the produced YAML
    and are dropped; assignment onto a primitive is a strict-mode
    TypeError. -/
def objUpdate : List (String × JV) → String → JV → List (String × JV)
  | [], k, v => [(k, v)]
  | (k', v') :: rest, k, v =>
      if k' = k then (k, v) :: rest else (k', v') :: objUpdate rest k v

/-- Array element write with hole padding (`arr[i] = v`). -/
def listSetPad : List JV → Nat → JV → List JV
  | [], 0, v => [v]
  | [], n + 1, v => .undef :: listSetPad [] n v
  | _ :: xs, 0, v => v :: xs
  | x :: xs, n + 1, v => x :: listSetPad xs n v

/-- Embeds `cur[t] = value` for the last token. -/
def jsSet (cur : JV) (t : Tok) (v : JV) : Except SetErr JV :=
  match cur, t with
  | .obj fs, .prop k => .ok (.obj (objUpdate fs k v))
  | .obj fs, .idx n => .ok (.obj (objUpdate fs (toString n) v))
  | .arr xs, .idx n => .ok (.arr (listSetPad xs n v))
  | .arr xs, .prop _ => .ok (.arr xs)
  | _, _ => .error .typeError

/-- The fresh container `ensureContainer` creates:
    `wantsArray ? [] : {}`. -/
def freshFor (nextIsIdx : Bool) : JV :=
  if nextIsIdx then .arr [] else .obj []

/-- The child `ensureContainer` (generate-locale.mjs lines 44-50) leaves at
    `parent[prop]` and descends into: create a fresh container when the
    slot `== null` (absent, null or undefined), then coerce an
    array-where-object-wanted or object/leaf-where-array-wanted. -/
def ensureChild (c0 : JV) (nextIsIdx : Bool) : JV :=
  let c1 := if c0 = .undef || c0 = .null then freshFor nextIsIdx else c0
  if nextIsIdx then (if c1.isArrV then c1 else .arr [])
  else (if c1.isArrV then .obj [] else c1)

/-- The child the index-step branch (generate-locale.mjs lines 65-72)
    descends into once `cur` is known to be an array:
    `if (cur[t] == null) cur[t] = typeof next === "number" ? [] : {}`. -/
def idxChild (c0 : JV) (nextIsIdx : Bool) : JV :=
  if c0 = .undef || c0 = .null then freshFor nextIsIdx else c0

/-- The walk of `setDeep` (generate-locale.mjs lines 51-76) over parsed
    tokens, rebuilding the tree functionally (see header notes: a throwing
    run performs no mutation in the source, so the error result carries no
    partial tree). -/
def setDeepGo (value : JV) : JV → List Tok → Except SetErr JV
  | cur, [] => .ok cur
  | cur, [t] => jsSet cur t value
  | cur, t :: next :: rest =>
      match t, cur with
      | .idx n, .arr xs =>
          match setDeepGo value (idxChild (elemD xs n) next.isIdx)
              (next :: rest) with
          | .ok c => .ok (.arr (listSetPad xs n c))
          | .error e => .error e
      | .idx _, _ => .error .typeMismatch
      | .prop k, .obj fs =>
          match setDeepGo value (ensureChild (lookupD fs k) next.isIdx)
              (next :: rest) with
          | .ok c => .ok (.obj (objUpdate fs k c))
          | .error e => .error e
      | .prop _, .arr xs =>
          -- a property step on an array creates or reuses a named property,
          -- invisible to the Document Tree; the sub-walk still runs
          match setDeepGo value (freshFor next.isIdx) (next :: rest) with
          | .ok _ => .ok (.arr xs)
          | .error e => .error e
      | .prop _, _ => .error .typeError

/-- Embeds `setDeep(obj, key, value)` (generate-locale.mjs lines 51-76). -/
def setDeep (root : JV) (key : String) (value : JV) : Except SetErr JV :=
  setDeepGo value root (parseKey key)

/-! ## Row-to-locale projection (generate-locale.mjs lines 25-33, 239-256) -/

mutual

/-- JavaScript string coercion of a cell value.  Scalar cases follow
    `String(v)` exactly; an array joins its elements with `,` (null and
    undefined elements become the empty string), an object becomes
    `"[object Object]"`.  Spreadsheet cells are scalars, so only the
    scalar cases are ever exercised by the program. -/
def jsToString : JV → String
  | .null => "null"
  | .undef => "undefined"
  | .str s => s
  | .num n => toString n
  | .bool b => if b then "true" else "false"
  | .obj _ => "[object Object]"
  | .arr xs => String.intercalate "," (jsToStringList xs)

def jsToStringList : List JV → List String
  | [] => []
  | x :: rest =>
      (if x = .null || x = .undef then "" else jsToString x) ::
        jsToStringList rest

end

/-- JavaScript `String.prototype.trim`: strip leading and trailing
    whitespace (modelled over the character list, so it evaluates in the
    kernel; the exact Unicode whitespace set is abstracted to
    `Char.isWhitespace`). -/
def jsTrim (s : String) : String :=
  String.mk
    (((s.toList.dropWhile Char.isWhitespace).reverse.dropWhile
        Char.isWhitespace).reverse)

/-- Embeds `isBlank` (generate-locale.mjs lines 25-27):
    `v == null || String(v).trim() === ""`. -/
def isBlank (v : JV) : Bool :=
  v = .null || v = .undef || jsTrim (jsToString v) = ""

/-- JavaScript falsiness of a cell value, for `String(cell || "")`. -/
def jsFalsy : JV → Bool
  | .null => true
  | .undef => true
  | .str s => s = ""
  | .num n => n = 0
  | .bool b => !b
  | _ => false

/-- A delimiter of the multi-key split regex `/[\n|,]+/g`. -/
def isDelim (c : Char) : Bool := c = '\n' || c = '|' || c = ','

/-- Maximal runs of non-delimiter characters.  `String.split` on a
    one-or-more-delimiters regex yields these runs plus possibly empty
    fragments at the ends, which the `.filter(Boolean)` after trimming
    discards either way. -/
def splitRuns (cs : List Char) : List (List Char) :=
  match cs with
  | [] => []
  | c :: rest =>
      if isDelim c then splitRuns rest
      else
        (c :: rest.takeWhile (fun ch => !isDelim ch)) ::
          splitRuns (rest.dropWhile (fun ch => !isDelim ch))
termination_by cs.length
decreasing_by
  all_goals simp_wf
  all_goals first
    | omega
    | (have h1 := length_dropWhile_le (fun ch => !isDelim ch) rest
       omega)

/-- Embeds `splitMultiKey` (generate-locale.mjs lines 28-33). -/
def splitMultiKey (cell : JV) : List String :=
  let s := if jsFalsy cell then "" else jsToString cell
  ((splitRuns s.toList).map (fun r => jsTrim (String.mk r))).filter
    (fun t => !(t = ""))

/-- A spreadsheet row as `sheet_to_json` produces it: a record mapping
    column headers to cell values.  `r[col]` on an absent header reads
    `undefined`. -/
def rowGet (r : List (String × JV)) (h : String) : JV := lookupD r h

/-- The message of a `setDeep` failure as the warning interpolates it
    (`e.message`); the explicit throw carries the key
    (generate-locale.mjs line 67), the strict-mode TypeError message is
    engine-specific and abstracted to a constant. -/
def errMessage (e : SetErr) (key : String) : String :=
  match e with
  | .typeMismatch => "Expected array while setting \x22" ++ key ++ "\x22"
  | .typeError => "TypeError"

/-- The warning string pushed for a failed triple
    (generate-locale.mjs line 252):
    `Row ${i + 2} col "${col}" key "${key}": ${e.message}` where `i` is
    the 0-based data row index (so `i + 2` is the 1-based row number
    offset by the header row). -/
def warnMsg (i : Nat) (col key : String) (e : SetErr) : String :=
  "Row " ++ toString (i + 2) ++ " col \x22" ++ col ++ "\x22 key \x22" ++
    key ++ "\x22: " ++ errMessage e key

/-- The projection state: one output tree per locale column plus the
    accumulated warnings. -/
structure ProjState where
  outputs : List (String × JV)
  warnings : List String
  deriving DecidableEq, Repr

/-- Processing of one (row, key, locale-column) triple
    (generate-locale.mjs lines 246-254): skip blank cells, otherwise
    deep-set the string-coerced cell into that locale's tree, converting
    a `setDeep` failure into a warning. -/
def tripleStep (i : Nat) (key col : String) (raw : JV) (st : ProjState) :
    ProjState :=
  if isBlank raw then st
  else
    match setDeep (lookupD st.outputs col) key (.str (jsToString raw)) with
    | .ok t => ⟨objUpdate st.outputs col t, st.warnings⟩
    | .error e => ⟨st.outputs, st.warnings ++ [warnMsg i col key e]⟩

/-- Processing of one row (generate-locale.mjs lines 239-256): split the
    key cell, then apply every (key, column) pair in order. -/
def rowStep (keyCol : String) (cols : List String) (i : Nat)
    (r : List (String × JV)) (st : ProjState) : ProjState :=
  (splitMultiKey (rowGet r keyCol)).foldl
    (fun st key => cols.foldl
      (fun st col => tripleStep i key col (rowGet r col) st) st) st

/-- The whole projection loop: every locale column starts from an empty
    object (generate-locale.mjs lines 233-234). -/
def projectRows (keyCol : String) (cols : List String)
    (rows : List (List (String × JV))) : ProjState :=
  (rows.enum).foldl (fun st ir => rowStep keyCol cols ir.1 ir.2 st)
    ⟨cols.map (fun c => (c, .obj [])), []⟩

/-! ## Predicates and companions used to state the claims -/

/-- The walk predicate of the claim on `TypeMismatch` as the spec words
    it: some index step is reached (following `setDeep`'s own descent)
    while the current container is not an array — including a final
    index step. -/
def claimedMismatchCond : JV → List Tok → Bool
  | _, [] => false
  | cur, [t] => t.isIdx && !cur.isArrV
  | cur, t :: next :: rest =>
      match t, cur with
      | .idx n, .arr xs =>
          claimedMismatchCond (idxChild (elemD xs n) next.isIdx) (next :: rest)
      | .idx _, _ => true
      | .prop k, .obj fs =>
          claimedMismatchCond (ensureChild (lookupD fs k) next.isIdx)
            (next :: rest)
      | .prop _, .arr _ =>
          claimedMismatchCond (freshFor next.isIdx) (next :: rest)
      | .prop _, _ => false

/-- The corrected walk predicate: a non-final index step is reached while
    the current container is not an array.  (A final index step assigns
    `cur[t] = value` without any array check.) -/
def mismatchCond : JV → List Tok → Bool
  | _, [] => false
  | _, [_] => false
  | cur, t :: next :: rest =>
      match t, cur with
      | .idx n, .arr xs =>
          mismatchCond (idxChild (elemD xs n) next.isIdx) (next :: rest)
      | .idx _, _ => true
      | .prop k, .obj fs =>
          mismatchCond (ensureChild (lookupD fs k) next.isIdx) (next :: rest)
      | .prop _, .arr _ => mismatchCond (freshFor next.isIdx) (next :: rest)
      | .prop _, _ => false

/-- Is the result `Except.error SetErr.typeMismatch`? -/
def isTypeMismatch (r : Except SetErr JV) : Bool :=
  match r with
  | .error .typeMismatch => true
  | _ => false

mutual

/-- The structural clone `reorderLike` produces for a reference sub-tree
    with no target (`reorderLike(refVal, undefined, ...)`): the reference
    shape with every leaf passed through `missingLeaf`. -/
def policyClone (mode : String) (v : JV) : JV :=
  match v with
  | .arr xs => .arr (policyCloneArr mode xs)
  | .obj fs => .obj (policyCloneObj mode fs)
  | leaf => missingLeaf mode leaf

def policyCloneArr (mode : String) (xs : List JV) : List JV :=
  match xs with
  | [] => []
  | x :: rest => policyClone mode x :: policyCloneArr mode rest

def policyCloneObj (mode : String) (fs : List (String × JV)) :
    List (String × JV) :=
  match fs with
  | [] => []
  | (k, v) :: rest => (k, policyClone mode v) :: policyCloneObj mode rest

end

mutual

/-- Embeds `createFromRef` (generate-locale.mjs lines 148-162): clone the
    reference sub-tree, leaves copied under mode `"ref"` and replaced by
    the empty string otherwise. -/
def createFromRef (mode : String) (refVal : JV) : JV :=
  match refVal with
  | .arr xs => .arr (createFromRefArr mode xs)
  | .obj fs => .obj (createFromRefObj mode fs)
  | leaf => if mode = "ref" then leaf else .str ""

def createFromRefArr (mode : String) (xs : List JV) : List JV :=
  match xs with
  | [] => []
  | x :: rest => createFromRef mode x :: createFromRefArr mode rest

def createFromRefObj (mode : String) (fs : List (String × JV)) :
    List (String × JV) :=
  match fs with
  | [] => []
  | (k, v) :: rest => (k, createFromRef mode v) :: createFromRefObj mode rest

end

mutual

/-- The `missing` paths `reorderLike` records while cloning a reference
    sub-tree with no target, in push order (nested paths are pushed
    before the path of the node itself, matching lines 91-99 and
    123-132 of sync-structure.mjs). -/
def cloneMissing (mode : String) (v : JV) (keyPath : String) : List String :=
  match v with
  | .arr xs => cloneMissingArr mode xs keyPath 0
  | .obj fs => cloneMissingObj mode fs keyPath
  | _ => [if keyPath = "" then "(root)" else keyPath]

def cloneMissingArr (mode : String) (xs : List JV) (keyPath : String)
    (i : Nat) : List String :=
  match xs with
  | [] => []
  | x :: rest =>
      let p := joinIdx keyPath i
      (if x.isContainer then cloneMissing mode x p ++ [p] else [p]) ++
        cloneMissingArr mode rest keyPath (i + 1)

def cloneMissingObj (mode : String) (fs : List (String × JV))
    (keyPath : String) : List String :=
  match fs with
  | [] => []
  | (k, v) :: rest =>
      let p := joinKey keyPath k
      (if v.isContainer then cloneMissing mode v p ++ [p] else [p]) ++
        cloneMissingObj mode rest keyPath

end

/-- No duplicates in a key list, as a computable check. -/
def nodupKeys : List String → Bool
  | [] => true
  | k :: rest => !(rest.contains k) && nodupKeys rest

mutual

/-- Well-formed document trees: the image of the YAML/JSON codec.  No
    `undefined` anywhere (YAML cannot produce it) and object keys are
    pairwise distinct (JavaScript objects cannot hold duplicates). -/
def WF : JV → Bool
  | .null => true
  | .str _ => true
  | .num _ => true
  | .bool _ => true
  | .undef => false
  | .arr xs => WFarr xs
  | .obj fs => nodupKeys (fs.map Prod.fst) && WFobj fs

def WFarr : List JV → Bool
  | [] => true
  | x :: rest => WF x && WFarr rest

def WFobj : List (String × JV) → Bool
  | [] => true
  | kv :: rest => WF kv.2 && WFobj rest

end

/-! ## General lemmas about the embedding -/

theorem nodupKeys_iff (ks : List String) :
    nodupKeys ks = true ↔ ks.Nodup := by
  induction ks with
  | nil => simp [nodupKeys]
  | cons k rest ih => simp [nodupKeys, ih, List.elem_iff]

theorem WFarr_iff (xs : List JV) :
    WFarr xs = true ↔ ∀ x ∈ xs, WF x = true := by
  induction xs with
  | nil => simp [WFarr]
  | cons x rest ih => simp [WFarr, ih]

theorem WFobj_iff (fs : List (String × JV)) :
    WFobj fs = true ↔ ∀ kv ∈ fs, WF kv.2 = true := by
  induction fs with
  | nil => simp [WFobj]
  | cons kv rest ih => simp [WFobj, ih]

theorem WF_arr_iff (xs : List JV) :
    WF (.arr xs) = true ↔ ∀ x ∈ xs, WF x = true := by
  rw [WF]
  exact WFarr_iff xs

theorem WF_obj_iff (fs : List (String × JV)) :
    WF (.obj fs) = true ↔
      (fs.map Prod.fst).Nodup ∧ ∀ kv ∈ fs, WF kv.2 = true := by
  rw [WF]
  simp [nodupKeys_iff, WFobj_iff]

theorem reorderLike_arr (mode : String) (xs : List JV) (t : JV) (p : String) :
    reorderLike mode (.arr xs) t p =
      ((.arr (reorderArrLoop mode xs (JV.asArr t) p 0).1 : JV),
        (reorderArrLoop mode xs (JV.asArr t) p 0).2) := by
  rw [reorderLike]

theorem reorderLike_obj (mode : String) (fs : List (String × JV)) (t : JV)
    (p : String) :
    reorderLike mode (.obj fs) t p =
      ((.obj ((reorderObjRefLoop mode fs (JV.asObj t) p).1 ++
          (JV.asObj t).filter (fun kv => !(hasKey fs kv.1))) : JV),
        ⟨(reorderObjRefLoop mode fs (JV.asObj t) p).2.missing,
          (reorderObjRefLoop mode fs (JV.asObj t) p).2.extra ++
            ((JV.asObj t).filter (fun kv => !(hasKey fs kv.1))).map
              (fun kv => joinKey p kv.1)⟩) := by
  rw [reorderLike]

theorem reorderLike_leaf (mode : String) (r t : JV) (p : String)
    (h : r.isContainer = false) :
    reorderLike mode r t p =
      if t = .undef then
        (missingLeaf mode r, ⟨[if p = "" then "(root)" else p], []⟩)
      else (t, ⟨[], []⟩) := by
  cases r <;>
    simp [JV.isContainer, JV.isObject, JV.isArrV] at h ⊢ <;>
    ((rw [reorderLike]) <;> simp)

/-- Structural induction over `JV` with membership hypotheses for the
    nested lists. -/
theorem JV.forall_ind (P : JV → Prop) (hnull : P .null) (hundef : P .undef)
    (hstr : ∀ s, P (.str s)) (hnum : ∀ n, P (.num n))
    (hbool : ∀ b, P (.bool b))
    (harr : ∀ xs, (∀ x ∈ xs, P x) → P (.arr xs))
    (hobj : ∀ fs, (∀ kv ∈ fs, P kv.2) → P (.obj fs)) : ∀ v, P v
  | .null => hnull
  | .undef => hundef
  | .str s => hstr s
  | .num n => hnum n
  | .bool b => hbool b
  | .arr xs => harr xs (fun x hx =>
      JV.forall_ind P hnull hundef hstr hnum hbool harr hobj x)
  | .obj fs => hobj fs (fun kv hkv =>
      JV.forall_ind P hnull hundef hstr hnum hbool harr hobj kv.2)
termination_by v => sizeOf v
decreasing_by
  · have h1 := List.sizeOf_lt_of_mem hx
    simp
    omega
  · have h1 := List.sizeOf_lt_of_mem hkv
    obtain ⟨k1, v1⟩ := kv
    simp at h1 ⊢
    omega

theorem policyClone_leaf (mode : String) (x : JV)
    (h : x.isContainer = false) :
    policyClone mode x = missingLeaf mode x := by
  cases x <;> simp [JV.isContainer, JV.isObject, JV.isArrV] at h ⊢ <;>
    ((rw [policyClone]) <;> simp)

theorem cloneMissing_leaf (mode : String) (x : JV) (p : String)
    (h : x.isContainer = false) :
    cloneMissing mode x p = [if p = "" then "(root)" else p] := by
  cases x <;> simp [JV.isContainer, JV.isObject, JV.isArrV] at h ⊢ <;>
    ((rw [cloneMissing]) <;> simp)

mutual

theorem reorderLike_undef_eq (mode : String) (r : JV) (p : String) :
    reorderLike mode r .undef p =
      (policyClone mode r, ⟨cloneMissing mode r p, []⟩) := by
  match r with
  | .arr xs =>
      rw [reorderLike_arr]
      simp only [JV.asArr]
      rw [reorderArrLoop_nil_eq mode xs p 0, policyClone, cloneMissing]
  | .obj fs =>
      rw [reorderLike_obj]
      simp only [JV.asObj]
      rw [reorderObjRefLoop_nil_eq mode fs p, policyClone, cloneMissing]
      simp
  | .null =>
      rw [reorderLike_leaf mode .null .undef p (by rfl)]
      simp [policyClone, cloneMissing]
  | .undef =>
      rw [reorderLike_leaf mode .undef .undef p (by rfl)]
      simp [policyClone, cloneMissing]
  | .str s =>
      rw [reorderLike_leaf mode (.str s) .undef p (by rfl)]
      simp [policyClone, cloneMissing]
  | .num n =>
      rw [reorderLike_leaf mode (.num n) .undef p (by rfl)]
      simp [policyClone, cloneMissing]
  | .bool b =>
      rw [reorderLike_leaf mode (.bool b) .undef p (by rfl)]
      simp [policyClone, cloneMissing]
termination_by sizeOf r

theorem reorderArrLoop_nil_eq (mode : String) (xs : List JV) (p : String)
    (i : Nat) :
    reorderArrLoop mode xs [] p i =
      (policyCloneArr mode xs, ⟨cloneMissingArr mode xs p i, []⟩) := by
  match xs with
  | [] =>
      rw [reorderArrLoop, policyCloneArr, cloneMissingArr]
  | x :: rest =>
      rw [reorderArrLoop, policyCloneArr, cloneMissingArr,
        reorderArrLoop_nil_eq mode rest p (i + 1)]
      by_cases hx : x.isContainer
      · rw [reorderLike_undef_eq mode x (joinIdx p i)]
        simp [hx]
      · simp only [hx]
        rw [policyClone_leaf mode x (by simpa using hx)]
        simp [hx]
termination_by sizeOf xs

theorem reorderObjRefLoop_nil_eq (mode : String) (fs : List (String × JV))
    (p : String) :
    reorderObjRefLoop mode fs [] p =
      (policyCloneObj mode fs, ⟨cloneMissingObj mode fs p, []⟩) := by
  match fs with
  | [] =>
      rw [reorderObjRefLoop, policyCloneObj, cloneMissingObj]
  | (k, v) :: rest =>
      rw [reorderObjRefLoop, policyCloneObj, cloneMissingObj,
        reorderObjRefLoop_nil_eq mode rest p]
      by_cases hv : v.isContainer
      · rw [reorderLike_undef_eq mode v (joinKey p k)]
        simp [hasKey, hv]
      · simp only [hasKey, List.any_nil, Bool.false_eq_true, if_neg]
        rw [policyClone_leaf mode v (by simpa using hv)]
        simp [hv]
termination_by sizeOf fs

end

/-! ## Claim C1 -/

/-- C1: for every missing-value policy, whenever the reference node is a
    leaf and the target value at the same position is defined, the merge
    returns the target value unchanged — whatever the types of the two
    leaves — and reports nothing (sync-structure.mjs lines 156-161;
    positions correspond to the recursive invocations of
    `reorderLike`). -/
theorem reorderLike_ref_leaf_keeps_target (mode : String) (r t : JV)
    (p : String) (hr : r.isContainer = false) (ht : t ≠ JV.undef) :
    reorderLike mode r t p = (t, ⟨[], []⟩) := by
  rw [reorderLike_leaf mode r t p hr]
  simp [ht]

/-- Witness for C1 at a concrete input: a string reference leaf over a
    numeric target leaf of a different type, under mode `"ref"`. -/
theorem reorderLike_ref_leaf_keeps_target_witness :
    (JV.str "Hi").isContainer = false ∧ (JV.num 7 : JV) ≠ JV.undef ∧
      reorderLike "ref" (.str "Hi") (.num 7) "greeting" =
        (.num 7, ⟨[], []⟩) :=
  ⟨by decide, by decide,
    reorderLike_ref_leaf_keeps_target "ref" (.str "Hi") (.num 7) "greeting"
      (by decide) (by decide)⟩

/-! ## Claim C7 -/

/-- C7 counterexample: the key `"."` parses to zero steps, yet the parser
    does not fail — there is no `EmptyPath` error anywhere in the code —
    and the subsequent deep-set silently succeeds without touching the
    tree. -/
theorem parseKey_zero_steps_no_error :
    parseKey "." = [] ∧
      setDeep (.obj [("x", .str "y")]) "." (.str "v") =
        .ok (.obj [("x", .str "y")]) := by
  constructor
  · simp [parseKey, parseKeyAux]
  · simp [setDeep, parseKey, parseKeyAux, setDeepGo]

/-- C7 amended: an input that yields zero parsed steps is not an error:
    `parseKey` returns the empty step list and `setDeep` with such a key
    returns the root unchanged (the token loop body never runs). -/
theorem setDeep_zero_steps_noop (root : JV) (key : String) (v : JV)
    (h : parseKey key = []) : setDeep root key v = .ok root := by
  unfold setDeep
  rw [h]
  simp [setDeepGo]

/-- Witness for the amended C7 at the concrete key `"."`. -/
theorem setDeep_zero_steps_noop_witness :
    parseKey "." = [] ∧
      setDeep (.num 3) "." (.str "v") = .ok (.num 3) :=
  ⟨by simp [parseKey, parseKeyAux],
    setDeep_zero_steps_noop (.num 3) "." (.str "v")
      (by simp [parseKey, parseKeyAux])⟩

/-! ## Claim C5 -/

/-- C5 counterexample: at an index step, an existing child of the wrong
    container kind is not silently replaced.  Target `[{}]` with key
    `"[0][0][0]"`: the child at index 0 is an object where the next index
    step requires an array, and `setDeep` raises the `Expected array`
    error instead of replacing it. -/
theorem setDeep_idx_wrong_kind_errors :
    setDeep (.arr [.obj []]) "[0][0][0]" (.str "v") =
      .error .typeMismatch := by
  simp [setDeep, parseKey, parseKeyAux, List.takeWhile, List.dropWhile,
    digitsToNat, setDeepGo, elemD, idxChild, Tok.isIdx]

/-- C5 amended: the replace-on-wrong-kind behavior belongs to property
    steps.  At a non-final property step whose existing child is a
    container of the wrong kind for the next step (object where an array
    is required, or array where an object is required),
    `ensureContainer` replaces the child with a fresh empty container of
    the required kind — prior content discarded, no error — and the walk
    continues from the fresh container.  (At index steps an existing
    non-null child is descended into unchanged; a wrong-kind child there
    surfaces later, as `typeMismatch` if an index step follows.) -/
theorem setDeep_prop_step_replaces_wrong_kind (value : JV)
    (fs : List (String × JV)) (k : String) (next : Tok) (rest : List Tok)
    (hwrong : (next.isIdx = true ∧ (lookupD fs k).isObject = true) ∨
      (next.isIdx = false ∧ (lookupD fs k).isArrV = true)) :
    ensureChild (lookupD fs k) next.isIdx = freshFor next.isIdx ∧
      setDeepGo value (.obj fs) (.prop k :: next :: rest) =
        match setDeepGo value (freshFor next.isIdx) (next :: rest) with
        | .ok c => .ok (.obj (objUpdate fs k c))
        | .error e => .error e := by
  have hch : ensureChild (lookupD fs k) next.isIdx = freshFor next.isIdx := by
    rcases hwrong with ⟨hb, hk⟩ | ⟨hb, hk⟩ <;>
      cases hc : lookupD fs k <;>
        simp [JV.isObject, JV.isArrV] at hk <;>
        simp [hc] at * <;>
        simp [ensureChild, hb, freshFor, JV.isArrV]
  refine ⟨hch, ?_⟩
  simp [setDeepGo, hch]

/-- Witness for the amended C5: `{a: {}}` written at `"a[0]"` — the
    object child is replaced by a fresh array which receives the value. -/
theorem setDeep_prop_step_replaces_wrong_kind_witness :
    ((Tok.idx 0).isIdx = true ∧
        (lookupD [("a", .obj [("old", .str "gone")])] "a").isObject = true) ∧
      ensureChild (lookupD [("a", .obj [("old", .str "gone")])] "a")
          (Tok.idx 0).isIdx = freshFor (Tok.idx 0).isIdx ∧
        setDeepGo (.str "v") (.obj [("a", .obj [("old", .str "gone")])])
            (.prop "a" :: .idx 0 :: []) =
          match setDeepGo (.str "v") (freshFor (Tok.idx 0).isIdx)
              (.idx 0 :: []) with
          | .ok c => .ok (.obj (objUpdate [("a", .obj [("old", .str "gone")])] "a" c))
          | .error e => .error e :=
  ⟨⟨by decide, by simp [lookupD, JV.isObject]⟩,
    setDeep_prop_step_replaces_wrong_kind (.str "v")
      [("a", .obj [("old", .str "gone")])] "a" (.idx 0) []
      (Or.inl ⟨by decide, by simp [lookupD, JV.isObject]⟩)⟩

/-! ## Claim C4 (counterexample) -/

/-- C4 counterexample: under mode `"none"` a missing reference leaf is
    filled with the empty string, not null — `"none"` is not a recognized
    mode name in the code and falls through to the default `""` branch of
    `missingLeaf`. -/
theorem missing_mode_none_fills_empty_string :
    reorderLike "none" (.obj [("a", .null)]) (.obj []) "" =
      (.obj [("a", .str "")], ⟨["a"], []⟩) ∧
      (JV.str "" : JV) ≠ JV.null := by
  constructor
  · simp [reorderLike_obj, JV.asObj, reorderObjRefLoop, hasKey,
      JV.isContainer, JV.isObject, JV.isArrV, missingLeaf, joinKey]
  · decide


/-! ## Claim C4 (amended theorem) -/

theorem createFromRefArr_eq_map (mode : String) (xs : List JV) :
    createFromRefArr mode xs = xs.map (createFromRef mode) := by
  induction xs with
  | nil => rw [createFromRefArr]; rfl
  | cons x rest ih => rw [createFromRefArr, ih]; rfl

theorem createFromRefObj_eq_map (mode : String) (fs : List (String × JV)) :
    createFromRefObj mode fs =
      fs.map (fun kv => (kv.1, createFromRef mode kv.2)) := by
  induction fs with
  | nil => rw [createFromRefObj]; rfl
  | cons kv rest ih =>
      obtain ⟨k, v⟩ := kv
      rw [createFromRefObj, ih]
      rfl

theorem policyCloneArr_eq_map (mode : String) (xs : List JV) :
    policyCloneArr mode xs = xs.map (policyClone mode) := by
  induction xs with
  | nil => rw [policyCloneArr]; rfl
  | cons x rest ih => rw [policyCloneArr, ih]; rfl

theorem policyCloneObj_eq_map (mode : String) (fs : List (String × JV)) :
    policyCloneObj mode fs =
      fs.map (fun kv => (kv.1, policyClone mode kv.2)) := by
  induction fs with
  | nil => rw [policyCloneObj]; rfl
  | cons kv rest ih =>
      obtain ⟨k, v⟩ := kv
      rw [policyCloneObj, ih]
      rfl

theorem createFromRef_ref_id : ∀ v : JV, createFromRef "ref" v = v := by
  intro v
  induction v using JV.forall_ind with
  | hnull => simp [createFromRef]
  | hundef => simp [createFromRef]
  | hstr s => simp [createFromRef]
  | hnum n => simp [createFromRef]
  | hbool b => simp [createFromRef]
  | harr xs ih =>
      rw [createFromRef, createFromRefArr_eq_map]
      have h1 : xs.map (createFromRef "ref") = xs.map id :=
        List.map_congr_left (fun x hx => by rw [ih x hx]; rfl)
      rw [h1, List.map_id]
  | hobj fs ih =>
      rw [createFromRef, createFromRefObj_eq_map]
      have h1 : fs.map (fun kv => (kv.1, createFromRef "ref" kv.2)) =
          fs.map id :=
        List.map_congr_left (fun kv hkv => by rw [ih kv hkv]; rfl)
      rw [h1, List.map_id]

theorem createFromRef_blank_eq_clone :
    ∀ v : JV, createFromRef "blank" v = policyClone "blank" v := by
  intro v
  induction v using JV.forall_ind with
  | hnull => simp [createFromRef, policyClone, missingLeaf]
  | hundef => simp [createFromRef, policyClone, missingLeaf]
  | hstr s => simp [createFromRef, policyClone, missingLeaf]
  | hnum n => simp [createFromRef, policyClone, missingLeaf]
  | hbool b => simp [createFromRef, policyClone, missingLeaf]
  | harr xs ih =>
      rw [createFromRef, policyClone, createFromRefArr_eq_map,
        policyCloneArr_eq_map]
      exact congrArg JV.arr (List.map_congr_left ih)
  | hobj fs ih =>
      rw [createFromRef, policyClone, createFromRefObj_eq_map,
        policyCloneObj_eq_map]
      exact congrArg JV.obj (List.map_congr_left
        (fun kv hkv => by rw [ih kv hkv]))

/-- C4 amended ("`null`/`none`" corrected to "`null`"; mode `"none"` is
    unrecognized and behaves as blank): a position missing from the
    target is filled by structurally cloning the reference sub-tree with
    every leaf transformed by the policy (`reorderLike` with an undefined
    target yields exactly `policyClone`, and `createFromRef` in
    generate-locale.mjs agrees for its two valid modes); the leaf
    transform copies the reference leaf under `ref`, yields `""` under
    `blank` regardless of the reference leaf's type, and yields null
    under `null`. -/
theorem missing_policy_fill :
    (∀ (mode p : String) (r : JV),
        (reorderLike mode r .undef p).1 = policyClone mode r) ∧
    (∀ l : JV, missingLeaf "ref" l = l) ∧
    (∀ l : JV, missingLeaf "blank" l = .str "") ∧
    (∀ l : JV, missingLeaf "null" l = .null) ∧
    (∀ v : JV, createFromRef "ref" v = v) ∧
    (∀ v : JV, createFromRef "blank" v = policyClone "blank" v) := by
  refine ⟨?_, ?_, ?_, ?_, createFromRef_ref_id, createFromRef_blank_eq_clone⟩
  · intro mode p r
    rw [reorderLike_undef_eq]
  · intro l
    simp [missingLeaf]
  · intro l
    simp [missingLeaf]
  · intro l
    simp [missingLeaf]

/-! ## Claim C10 -/

theorem asObj_of_not_object (t : JV) (h : t.isObject = false) :
    JV.asObj t = [] := by
  cases t <;> simp [JV.isObject] at h ⊢ <;> simp [JV.asObj]

theorem cloneMissingObj_mem (mode p : String) (fs : List (String × JV)) :
    ∀ kv ∈ fs, joinKey p kv.1 ∈ cloneMissingObj mode fs p := by
  induction fs with
  | nil => simp
  | cons kv0 rest ih =>
      obtain ⟨k, v⟩ := kv0
      intro kv hkv
      rw [cloneMissingObj]
      rw [List.mem_cons] at hkv
      rcases hkv with rfl | hkv
      · by_cases hc : v.isContainer <;> simp [hc]
      · exact List.mem_append_right _ (ih kv hkv)

/-- C10: when the reference node is an object and the target holds a
    defined non-object, non-array value, `reorderLike` silently discards
    the target leaf: the merge behaves exactly as with an empty target
    object, the output is the policy clone of the reference fields (every
    reference key filled per policy), nothing is recorded under `extra`
    (so the discarded leaf is neither preserved nor reported), and every
    reference key's path is recorded under `missing`
    (sync-structure.mjs lines 113-117 and 135-140). -/
theorem reorderLike_obj_discards_leaf_target (mode p : String)
    (fs : List (String × JV)) (t : JV) (h1 : t.isObject = false)
    (h2 : t.isArrV = false) (h3 : t ≠ JV.undef) :
    reorderLike mode (.obj fs) t p = reorderLike mode (.obj fs) (.obj []) p ∧
      (reorderLike mode (.obj fs) t p).1 = .obj (policyCloneObj mode fs) ∧
      (reorderLike mode (.obj fs) t p).2.extra = [] ∧
      ∀ kv ∈ fs, joinKey p kv.1 ∈ (reorderLike mode (.obj fs) t p).2.missing := by
  have e1 : JV.asObj t = [] := asObj_of_not_object t h1
  have e2 : reorderLike mode (.obj fs) t p =
      (.obj (policyCloneObj mode fs),
        ⟨cloneMissingObj mode fs p, []⟩) := by
    rw [reorderLike_obj, e1, reorderObjRefLoop_nil_eq]
    simp
  have e3 : reorderLike mode (.obj fs) (.obj []) p =
      (.obj (policyCloneObj mode fs),
        ⟨cloneMissingObj mode fs p, []⟩) := by
    rw [reorderLike_obj]
    simp only [JV.asObj]
    rw [reorderObjRefLoop_nil_eq]
    simp
  refine ⟨e2.trans e3.symm, ?_, ?_, ?_⟩
  · rw [e2]
  · rw [e2]
  · rw [e2]
    exact cloneMissingObj_mem mode p fs

/-- Witness for C10: reference `{a: null, b: "x"}` against the target
    leaf `"oops"` under mode `"ref"`. -/
theorem reorderLike_obj_discards_leaf_target_witness :
    reorderLike "ref" (.obj [("a", .null), ("b", .str "x")]) (.str "oops") "" =
        reorderLike "ref" (.obj [("a", .null), ("b", .str "x")]) (.obj []) "" ∧
      (reorderLike "ref" (.obj [("a", .null), ("b", .str "x")])
          (.str "oops") "").1 =
        .obj (policyCloneObj "ref" [("a", .null), ("b", .str "x")]) ∧
      (reorderLike "ref" (.obj [("a", .null), ("b", .str "x")])
          (.str "oops") "").2.extra = [] ∧
      joinKey "" "a" ∈ (reorderLike "ref" (.obj [("a", .null), ("b", .str "x")])
          (.str "oops") "").2.missing :=
  ⟨(reorderLike_obj_discards_leaf_target "ref" ""
      [("a", .null), ("b", .str "x")] (.str "oops")
      (by decide) (by decide) (by decide)).1,
    (reorderLike_obj_discards_leaf_target "ref" ""
      [("a", .null), ("b", .str "x")] (.str "oops")
      (by decide) (by decide) (by decide)).2.1,
    (reorderLike_obj_discards_leaf_target "ref" ""
      [("a", .null), ("b", .str "x")] (.str "oops")
      (by decide) (by decide) (by decide)).2.2.1,
    (reorderLike_obj_discards_leaf_target "ref" ""
      [("a", .null), ("b", .str "x")] (.str "oops")
      (by decide) (by decide) (by decide)).2.2.2 ("a", .null) (by simp)⟩

/-! ## Claim C9 -/

/-- C9: a blank cell — null, undefined, or whitespace-only after string
    coercion — is skipped by the projection loop: the triple leaves the
    whole state (every locale's output tree, and the warnings) untouched;
    a blank cell never overwrites an existing path and never creates one
    (generate-locale.mjs lines 25-27 and 246-247). -/
theorem tripleStep_blank_skip (i : Nat) (key col : String) (raw : JV)
    (st : ProjState)
    (h : raw = JV.null ∨ raw = JV.undef ∨ jsTrim (jsToString raw) = "") :
    tripleStep i key col raw st = st := by
  have hb : isBlank raw = true := by
    rcases h with rfl | rfl | h
    · simp [isBlank]
    · simp [isBlank]
    · simp [isBlank, h]
  rw [tripleStep, hb]
  simp

/-- Witness for C9 at a concrete state and a whitespace-only cell. -/
theorem tripleStep_blank_skip_witness :
    ((JV.str "  ") = JV.null ∨ (JV.str "  ") = JV.undef ∨
        jsTrim (jsToString (.str "  ")) = "") ∧
      tripleStep 4 "a.b" "loc:EN" (.str "  ")
          ⟨[("loc:EN", .obj [("a", .str "x")])], ["w"]⟩ =
        ⟨[("loc:EN", .obj [("a", .str "x")])], ["w"]⟩ :=
  ⟨Or.inr (Or.inr (by decide)),
    tripleStep_blank_skip 4 "a.b" "loc:EN" (.str "  ")
      ⟨[("loc:EN", .obj [("a", .str "x")])], ["w"]⟩
      (Or.inr (Or.inr (by decide)))⟩

/-! ## Claim C6 -/

/-- C6 counterexample: with target `{}` and key `"[0]"`, an index step is
    reached while the current container is not an array (the condition of
    the claim holds), yet `setDeep` does not fail with `TypeMismatch`: a
    final index step performs `cur[t] = value` with no array check,
    creating the string key `"0"` on the object. -/
theorem setDeep_final_idx_no_typeMismatch :
    claimedMismatchCond (.obj []) (parseKey "[0]") = true ∧
      isTypeMismatch (setDeep (.obj []) "[0]" (.str "v")) = false ∧
      setDeep (.obj []) "[0]" (.str "v") = .ok (.obj [("0", .str "v")]) := by
  refine ⟨?_, ?_, ?_⟩
  · simp [parseKey, parseKeyAux, List.takeWhile, List.dropWhile, digitsToNat,
      claimedMismatchCond, Tok.isIdx, JV.isArrV]
  · simp [setDeep, parseKey, parseKeyAux, List.takeWhile, List.dropWhile,
      digitsToNat, setDeepGo, jsSet, objUpdate, isTypeMismatch]
  · simp [setDeep, parseKey, parseKeyAux, List.takeWhile, List.dropWhile,
      digitsToNat, setDeepGo, jsSet, objUpdate]
    decide

theorem isTypeMismatch_setDeepGo (value : JV) :
    ∀ (toks : List Tok) (cur : JV),
      isTypeMismatch (setDeepGo value cur toks) = mismatchCond cur toks
  | [], cur => by simp [setDeepGo, mismatchCond, isTypeMismatch]
  | [t], cur => by
      cases t <;> cases cur <;>
        simp [setDeepGo, mismatchCond, jsSet, isTypeMismatch]
  | t :: next :: rest, cur => by
      cases t with
      | prop k =>
          cases cur with
          | obj fs =>
              have ih := isTypeMismatch_setDeepGo value (next :: rest)
                (ensureChild (lookupD fs k) next.isIdx)
              simp only [setDeepGo, mismatchCond]
              rw [← ih]
              rcases h : setDeepGo value (ensureChild (lookupD fs k) next.isIdx)
                  (next :: rest) with t' | e
              · simp [isTypeMismatch]
              · cases e <;> simp [isTypeMismatch]
          | arr xs =>
              have ih := isTypeMismatch_setDeepGo value (next :: rest)
                (freshFor next.isIdx)
              simp only [setDeepGo, mismatchCond]
              rw [← ih]
              rcases h : setDeepGo value (freshFor next.isIdx)
                  (next :: rest) with t' | e
              · simp [isTypeMismatch]
              · cases e <;> simp [isTypeMismatch]
          | null => simp [setDeepGo, mismatchCond, isTypeMismatch]
          | undef => simp [setDeepGo, mismatchCond, isTypeMismatch]
          | str s => simp [setDeepGo, mismatchCond, isTypeMismatch]
          | num n => simp [setDeepGo, mismatchCond, isTypeMismatch]
          | bool b => simp [setDeepGo, mismatchCond, isTypeMismatch]
      | idx n =>
          cases cur with
          | arr xs =>
              have ih := isTypeMismatch_setDeepGo value (next :: rest)
                (idxChild (elemD xs n) next.isIdx)
              simp only [setDeepGo, mismatchCond]
              rw [← ih]
              rcases h : setDeepGo value (idxChild (elemD xs n) next.isIdx)
                  (next :: rest) with t' | e
              · simp [isTypeMismatch]
              · cases e <;> simp [isTypeMismatch]
          | null => simp [setDeepGo, mismatchCond, isTypeMismatch]
          | undef => simp [setDeepGo, mismatchCond, isTypeMismatch]
          | str s => simp [setDeepGo, mismatchCond, isTypeMismatch]
          | num n2 => simp [setDeepGo, mismatchCond, isTypeMismatch]
          | bool b => simp [setDeepGo, mismatchCond, isTypeMismatch]
          | obj fs => simp [setDeepGo, mismatchCond, isTypeMismatch]

/-- C6 amended ("an index step" corrected to "a non-final index step"):
    `setDeep` fails with `TypeMismatch` exactly when its walk reaches a
    non-final index step while the current container is not an array, and
    during row projection such a failure is caught for the single
    (row, key, column) triple: the outputs are left unchanged and a
    warning keyed by the 1-based row number offset for the header row
    (`i + 2`), the column and the key is appended — processing then
    continues with the next triple by the fold structure of
    `rowStep`/`projectRows`. -/
theorem setDeep_typeMismatch_iff_and_warning :
    (∀ (root : JV) (key : String) (v : JV),
        isTypeMismatch (setDeep root key v) =
          mismatchCond root (parseKey key)) ∧
    (∀ (st : ProjState) (i : Nat) (key col : String) (raw : JV) (e : SetErr),
        isBlank raw = false →
        setDeep (lookupD st.outputs col) key (.str (jsToString raw)) =
          .error e →
        tripleStep i key col raw st =
          ⟨st.outputs, st.warnings ++ [warnMsg i col key e]⟩) := by
  constructor
  · intro root key v
    rw [setDeep]
    exact isTypeMismatch_setDeepGo v (parseKey key) root
  · intro st i key col raw e hb herr
    rw [tripleStep, hb]
    simp [herr]

/-- Witness for C6 at a concrete failing triple: key `"[0].x"` against an
    empty object root fails with `TypeMismatch`; the triple leaves the
    outputs unchanged and appends the formatted warning for data row 0
    (reported as spreadsheet row 2). -/
theorem setDeep_typeMismatch_iff_and_warning_witness :
    isTypeMismatch (setDeep (.obj []) "[0].x" (.str "v")) =
        mismatchCond (.obj []) (parseKey "[0].x") ∧
      (isBlank (.str "v") = false ∧
        setDeep (lookupD [("loc:EN", .obj [])] "loc:EN") "[0].x"
            (.str (jsToString (.str "v"))) = .error .typeMismatch ∧
        tripleStep 0 "[0].x" "loc:EN" (.str "v")
            ⟨[("loc:EN", .obj [])], []⟩ =
          ⟨[("loc:EN", .obj [])],
            [warnMsg 0 "loc:EN" "[0].x" .typeMismatch]⟩) :=
  ⟨setDeep_typeMismatch_iff_and_warning.1 (.obj []) "[0].x" (.str "v"),
    by decide,
    by simp [setDeep, parseKey, parseKeyAux, List.takeWhile, List.dropWhile,
      digitsToNat, setDeepGo, lookupD, jsToString],
    setDeep_typeMismatch_iff_and_warning.2 ⟨[("loc:EN", .obj [])], []⟩ 0
      "[0].x" "loc:EN" (.str "v") .typeMismatch (by decide)
      (by simp [setDeep, parseKey, parseKeyAux, List.takeWhile,
        List.dropWhile, digitsToNat, setDeepGo, lookupD, jsToString])⟩

/-! ## Claim C8 -/

theorem lookupD_objUpdate (fs : List (String × JV)) (k : String) (v : JV) :
    lookupD (objUpdate fs k v) k = v := by
  induction fs with
  | nil => simp [objUpdate, lookupD, List.find?]
  | cons kv rest ih =>
      obtain ⟨k', v'⟩ := kv
      by_cases h : k' = k <;> simp [objUpdate, h, lookupD, List.find?] <;>
        simpa [lookupD] using ih

theorem objUpdate_objUpdate (fs : List (String × JV)) (k : String)
    (v w : JV) : objUpdate (objUpdate fs k v) k w = objUpdate fs k w := by
  induction fs with
  | nil => simp [objUpdate]
  | cons kv rest ih =>
      obtain ⟨k', v'⟩ := kv
      by_cases h : k' = k <;> simp [objUpdate, h, ih]

theorem elemD_listSetPad (xs : List JV) (n : Nat) (v : JV) :
    elemD (listSetPad xs n v) n = v := by
  induction xs generalizing n with
  | nil =>
      induction n with
      | zero => simp [listSetPad, elemD]
      | succ m ihm => simpa [listSetPad, elemD] using ihm
  | cons x rest ih =>
      cases n with
      | zero => simp [listSetPad, elemD]
      | succ m => simpa [listSetPad, elemD] using ih m

theorem listSetPad_listSetPad (xs : List JV) (n : Nat) (v w : JV) :
    listSetPad (listSetPad xs n v) n w = listSetPad xs n w := by
  induction xs generalizing n with
  | nil =>
      induction n with
      | zero => simp [listSetPad]
      | succ m ihm => simpa [listSetPad] using ihm
  | cons x rest ih =>
      cases n with
      | zero => simp [listSetPad]
      | succ m => simpa [listSetPad] using ih m

theorem ensureChild_isArrV (c : JV) (b : Bool) :
    (ensureChild c b).isArrV = b := by
  cases b <;> cases c <;>
    simp [ensureChild, freshFor, JV.isArrV] <;>
    split <;> simp_all [JV.isArrV]

theorem container_ne_undef_null (v : JV)
    (h : (v.isArrV || v.isObject) = true) :
    v ≠ JV.undef ∧ v ≠ JV.null := by
  cases v <;> simp [JV.isArrV, JV.isObject] at h ⊢

theorem ensureChild_fixpoint (c : JV) (b : Bool) (h1 : c ≠ JV.undef)
    (h2 : c ≠ JV.null) (h3 : c.isArrV = b) : ensureChild c b = c := by
  cases b <;> cases c <;> simp [JV.isArrV] at h3 <;>
    simp_all [ensureChild, JV.isArrV]

theorem idxChild_fixpoint (c : JV) (b : Bool) (h1 : c ≠ JV.undef)
    (h2 : c ≠ JV.null) : idxChild c b = c := by
  simp [idxChild, h1, h2]

/-- A successful `setDeepGo` over a nonempty token list preserves the
    top-level container kind and always yields a container. -/
theorem setDeepGo_shape (value : JV) (toks : List Tok) (cur out : JV)
    (hne : toks ≠ []) (h : setDeepGo value cur toks = .ok out) :
    out.isArrV = cur.isArrV ∧ out.isObject = cur.isObject ∧
      (out.isArrV || out.isObject) = true := by
  match toks with
  | [t] =>
      cases t <;> cases cur <;>
        simp [setDeepGo, jsSet] at h <;>
        simp [← h, JV.isArrV, JV.isObject]
  | t :: next :: rest =>
      cases t with
      | prop k =>
          cases cur with
          | obj fs =>
              simp only [setDeepGo] at h
              rcases h' : setDeepGo value
                  (ensureChild (lookupD fs k) next.isIdx) (next :: rest)
                  with c | e <;> rw [h'] at h <;> simp at h
              simp [← h, JV.isArrV, JV.isObject]
          | arr xs =>
              simp only [setDeepGo] at h
              rcases h' : setDeepGo value (freshFor next.isIdx)
                  (next :: rest) with c | e <;> rw [h'] at h <;> simp at h
              simp [← h, JV.isArrV, JV.isObject]
          | null => simp [setDeepGo] at h
          | undef => simp [setDeepGo] at h
          | str s => simp [setDeepGo] at h
          | num m => simp [setDeepGo] at h
          | bool b => simp [setDeepGo] at h
      | idx n =>
          cases cur with
          | arr xs =>
              simp only [setDeepGo] at h
              rcases h' : setDeepGo value (idxChild (elemD xs n) next.isIdx)
                  (next :: rest) with c | e <;> rw [h'] at h <;> simp at h
              simp [← h, JV.isArrV, JV.isObject]
          | obj fs => simp [setDeepGo] at h
          | null => simp [setDeepGo] at h
          | undef => simp [setDeepGo] at h
          | str s => simp [setDeepGo] at h
          | num m => simp [setDeepGo] at h
          | bool b => simp [setDeepGo] at h

theorem setDeepGo_idem (value : JV) :
    ∀ (toks : List Tok) (cur out : JV),
      setDeepGo value cur toks = .ok out →
      setDeepGo value out toks = .ok out
  | [], cur, out => by
      intro h
      simp [setDeepGo] at h
      simp [setDeepGo, h]
  | [t], cur, out => by
      intro h
      cases t with
      | prop k =>
          cases cur <;> simp [setDeepGo, jsSet] at h <;>
            simp [setDeepGo, jsSet, ← h, objUpdate_objUpdate]
      | idx n =>
          cases cur <;> simp [setDeepGo, jsSet] at h <;>
            simp [setDeepGo, jsSet, ← h, objUpdate_objUpdate,
              listSetPad_listSetPad]
  | t :: next :: rest, cur, out => by
      intro h
      cases t with
      | prop k =>
          cases cur with
          | obj fs =>
              simp only [setDeepGo] at h
              rcases h' : setDeepGo value
                  (ensureChild (lookupD fs k) next.isIdx) (next :: rest)
                  with e | c <;> rw [h'] at h <;> simp at h
              have hs := setDeepGo_shape value (next :: rest)
                (ensureChild (lookupD fs k) next.isIdx) c (by simp) h'
              have hcu := container_ne_undef_null c hs.2.2
              have hfix : ensureChild c next.isIdx = c :=
                ensureChild_fixpoint c next.isIdx hcu.1 hcu.2
                  (by rw [hs.1, ensureChild_isArrV])
              have hih := setDeepGo_idem value (next :: rest)
                (ensureChild (lookupD fs k) next.isIdx) c h'
              subst h
              simp only [setDeepGo, lookupD_objUpdate, hfix, hih,
                objUpdate_objUpdate]
          | arr xs =>
              simp only [setDeepGo] at h
              rcases h' : setDeepGo value (freshFor next.isIdx)
                  (next :: rest) with e | c <;> rw [h'] at h <;> simp at h
              subst h
              simp only [setDeepGo, h']
          | null => simp [setDeepGo] at h
          | undef => simp [setDeepGo] at h
          | str s => simp [setDeepGo] at h
          | num m => simp [setDeepGo] at h
          | bool b => simp [setDeepGo] at h
      | idx n =>
          cases cur with
          | arr xs =>
              simp only [setDeepGo] at h
              rcases h' : setDeepGo value (idxChild (elemD xs n) next.isIdx)
                  (next :: rest) with e | c <;> rw [h'] at h <;> simp at h
              have hs := setDeepGo_shape value (next :: rest)
                (idxChild (elemD xs n) next.isIdx) c (by simp) h'
              have hcu := container_ne_undef_null c hs.2.2
              have hfix : idxChild c next.isIdx = c :=
                idxChild_fixpoint c next.isIdx hcu.1 hcu.2
              have hih := setDeepGo_idem value (next :: rest)
                (idxChild (elemD xs n) next.isIdx) c h'
              subst h
              simp only [setDeepGo, elemD_listSetPad, hfix, hih,
                listSetPad_listSetPad]
          | obj fs => simp [setDeepGo] at h
          | null => simp [setDeepGo] at h
          | undef => simp [setDeepGo] at h
          | str s => simp [setDeepGo] at h
          | num m => simp [setDeepGo] at h
          | bool b => simp [setDeepGo] at h

/-- C8: whenever `setDeep` succeeds, applying it again with the identical
    (path, value) pair returns the same tree unchanged: the intermediate
    containers built by the first call are reused as-is and the final
    assignment overwrites the same slot with the same value
    (generate-locale.mjs lines 44-76). -/
theorem setDeep_idempotent (root : JV) (key : String) (value out : JV)
    (h : setDeep root key value = .ok out) :
    setDeep out key value = .ok out := by
  rw [setDeep] at h ⊢
  exact setDeepGo_idem value (parseKey key) root out h

/-- Witness for C8 at the concrete write `"a[1].b" := "v"` into `{}`. -/
theorem setDeep_idempotent_witness :
    setDeep (.obj []) "a[1].b" (.str "v") =
        .ok (.obj [("a", .arr [.undef, .obj [("b", .str "v")]])]) ∧
      setDeep (.obj [("a", .arr [.undef, .obj [("b", .str "v")]])]) "a[1].b"
          (.str "v") =
        .ok (.obj [("a", .arr [.undef, .obj [("b", .str "v")]])]) := by
  have h1 : setDeep (.obj []) "a[1].b" (.str "v") =
      .ok (.obj [("a", .arr [.undef, .obj [("b", .str "v")]])]) := by
    simp [setDeep, parseKey, parseKeyAux, List.takeWhile, List.dropWhile,
      propChar, digitsToNat, setDeepGo, jsSet, lookupD, List.find?,
      ensureChild, idxChild, freshFor, elemD, Tok.isIdx, objUpdate,
      listSetPad, JV.isArrV]
  exact ⟨h1, setDeep_idempotent (.obj []) "a[1].b" (.str "v")
    (.obj [("a", .arr [.undef, .obj [("b", .str "v")]])]) h1⟩

/-! ## Claim C3 -/

theorem reorderObjRefLoop_keys (mode : String) (refFs tgtFs : List (String × JV))
    (p : String) :
    (reorderObjRefLoop mode refFs tgtFs p).1.map Prod.fst =
      refFs.map Prod.fst := by
  induction refFs with
  | nil => rw [reorderObjRefLoop]
  | cons kv rest ih =>
      obtain ⟨k, v⟩ := kv
      rw [reorderObjRefLoop]
      by_cases h1 : hasKey tgtFs k <;> by_cases h2 : v.isContainer <;>
        simp [h1, h2, ih]

theorem reorderArrLoop_length (mode : String) (rs ts : List JV)
    (p : String) (i : Nat) :
    (reorderArrLoop mode rs ts p i).1.length = max rs.length ts.length := by
  induction rs generalizing ts i with
  | nil =>
      induction ts generalizing i with
      | nil => rw [reorderArrLoop]; simp
      | cons t ts' iht =>
          rw [reorderArrLoop]
          by_cases h : t = JV.undef <;> simp [h, iht]
  | cons r rs' ih =>
      cases ts with
      | nil =>
          rw [reorderArrLoop]
          by_cases h : r.isContainer <;> simp [h, ih]
      | cons t ts' =>
          rw [reorderArrLoop]
          by_cases h1 : r = JV.undef
          · subst h1
            by_cases h2 : t = JV.undef <;>
              simp [h2, JV.isContainer, JV.isObject, JV.isArrV, ih,
                Nat.succ_max_succ]
          · by_cases h2 : t = JV.undef <;> by_cases h3 : r.isContainer <;>
              simp [h1, h2, h3, ih, Nat.succ_max_succ]

theorem reorderArrLoop_nil_cons (mode p : String) (t : JV) (ts : List JV)
    (i : Nat) (hne : t ≠ JV.undef) :
    reorderArrLoop mode [] (t :: ts) p i =
      (t :: (reorderArrLoop mode [] ts p (i + 1)).1,
        ⟨(reorderArrLoop mode [] ts p (i + 1)).2.missing,
          joinIdx p i :: (reorderArrLoop mode [] ts p (i + 1)).2.extra⟩) := by
  rw [reorderArrLoop]
  simp [hne]

theorem reorderArrLoop_tail_getD (mode p : String) (r t : JV)
    (rs ts : List JV) (i j : Nat) (hne : t ≠ JV.undef) :
    (reorderArrLoop mode (r :: rs) (t :: ts) p i).1.getD (j + 1) .undef =
      (reorderArrLoop mode rs ts p (i + 1)).1.getD j .undef := by
  rw [reorderArrLoop]
  by_cases h1 : r = JV.undef
  · subst h1
    simp [hne, JV.isContainer, JV.isObject, JV.isArrV]
  · by_cases h3 : r.isContainer <;> simp [h1, h3, hne]

theorem reorderArrLoop_tail_extra_mem (mode p : String) (r t : JV)
    (rs ts : List JV) (i : Nat) (q : String) (hne : t ≠ JV.undef)
    (hq : q ∈ (reorderArrLoop mode rs ts p (i + 1)).2.extra) :
    q ∈ (reorderArrLoop mode (r :: rs) (t :: ts) p i).2.extra := by
  rw [reorderArrLoop]
  by_cases h1 : r = JV.undef
  · subst h1
    simp [hne, JV.isContainer, JV.isObject, JV.isArrV, hq]
  · by_cases h3 : r.isContainer <;> simp [h1, h3, hne, hq]

theorem reorderArrLoop_extra_elem (mode p : String) :
    ∀ (rs ts : List JV) (j i : Nat),
      (∀ x ∈ ts, x ≠ JV.undef) → rs.length ≤ j → j < ts.length →
      (reorderArrLoop mode rs ts p i).1.getD j .undef = ts.getD j .undef ∧
        joinIdx p (i + j) ∈ (reorderArrLoop mode rs ts p i).2.extra := by
  intro rs
  induction rs with
  | nil =>
      intro ts
      induction ts with
      | nil =>
          intro j i hts hle hlt
          simp at hlt
      | cons t ts' iht =>
          intro j i hts hle hlt
          have hne : t ≠ JV.undef := hts t (by simp)
          rw [reorderArrLoop_nil_cons mode p t ts' i hne]
          cases j with
          | zero => simp
          | succ j' =>
              have ih := iht j' (i + 1) (fun x hx => hts x (by simp [hx]))
                (by simp) (by simpa using hlt)
              have hidx : i + 1 + j' = i + (j' + 1) := by omega
              rw [hidx] at ih
              exact ⟨by simpa using ih.1,
                List.mem_cons_of_mem _ ih.2⟩
  | cons r rs' ih =>
      intro ts j i hts hle hlt
      cases ts with
      | nil => simp at hlt
      | cons t ts' =>
          have hne : t ≠ JV.undef := hts t (by simp)
          cases j with
          | zero => simp at hle
          | succ j' =>
              have ihj := ih ts' j' (i + 1)
                (fun x hx => hts x (by simp [hx]))
                (by simpa using hle) (by simpa using hlt)
              have hidx : i + 1 + j' = i + (j' + 1) := by omega
              rw [hidx] at ihj
              constructor
              · rw [reorderArrLoop_tail_getD mode p r t rs' ts' i j' hne]
                simpa using ihj.1
              · exact reorderArrLoop_tail_extra_mem mode p r t rs' ts' i _
                  hne ihj.2

/-- C3: the merge never drops target-only material.  For objects: the
    output consists of the reference-ordered entries (one per reference
    key, in reference order) followed by exactly the target-only entries,
    verbatim, in the target's own order, and each target-only key's path
    is recorded under `extra` (sync-structure.mjs lines 146-151).  For
    arrays: the output has `max` length, and every target element at an
    index beyond the reference array's length is kept verbatim with its
    path recorded under `extra` (lines 84-89). -/
theorem reorderLike_keeps_target_only (mode p : String) :
    (∀ (refFs tgtFs : List (String × JV)),
      (reorderLike mode (.obj refFs) (.obj tgtFs) p).1 =
          .obj ((reorderObjRefLoop mode refFs tgtFs p).1 ++
            tgtFs.filter (fun kv => !(hasKey refFs kv.1))) ∧
      (reorderObjRefLoop mode refFs tgtFs p).1.map Prod.fst =
          refFs.map Prod.fst ∧
      (∀ kv ∈ tgtFs, hasKey refFs kv.1 = false →
        joinKey p kv.1 ∈
          (reorderLike mode (.obj refFs) (.obj tgtFs) p).2.extra)) ∧
    (∀ (refArr tgtArr : List JV) (j : Nat),
      (∀ x ∈ tgtArr, x ≠ JV.undef) →
      (JV.asArr (reorderLike mode (.arr refArr) (.arr tgtArr) p).1).length =
          max refArr.length tgtArr.length ∧
      (refArr.length ≤ j → j < tgtArr.length →
        elemD (JV.asArr (reorderLike mode (.arr refArr) (.arr tgtArr) p).1) j =
            elemD tgtArr j ∧
          joinIdx p j ∈
            (reorderLike mode (.arr refArr) (.arr tgtArr) p).2.extra)) := by
  constructor
  · intro refFs tgtFs
    rw [reorderLike_obj]
    refine ⟨by simp [JV.asObj], by simp [JV.asObj,
      reorderObjRefLoop_keys], ?_⟩
    intro kv hkv hnk
    simp only [JV.asObj]
    apply List.mem_append_right
    exact List.mem_map_of_mem _ (List.mem_filter.mpr ⟨hkv, by simp [hnk]⟩)
  · intro refArr tgtArr j hts
    rw [reorderLike_arr]
    constructor
    · simp only [JV.asArr]
      exact reorderArrLoop_length mode refArr tgtArr p 0
    · intro hle hlt
      have h := reorderArrLoop_extra_elem mode p refArr tgtArr j 0 hts hle hlt
      simp only [Nat.zero_add] at h
      exact ⟨by simpa [JV.asArr, elemD] using h.1, h.2⟩

/-- Witness for C3: reference `{a: 1}` against target `{a: 1, b: 2}`, and
    reference `["r"]` against target `["t0", "t1"]` at index 1. -/
theorem reorderLike_keeps_target_only_witness :
    ((reorderLike "empty" (.obj [("a", .num 1)])
          (.obj [("a", .num 1), ("b", .num 2)]) "").1 =
        .obj ((reorderObjRefLoop "empty" [("a", .num 1)]
            [("a", .num 1), ("b", .num 2)] "").1 ++
          [("a", .num 1), ("b", .num 2)].filter
            (fun kv => !(hasKey [("a", .num 1)] kv.1))) ∧
      joinKey "" "b" ∈ (reorderLike "empty" (.obj [("a", .num 1)])
          (.obj [("a", .num 1), ("b", .num 2)]) "").2.extra) ∧
      ((JV.asArr (reorderLike "empty" (.arr [.str "r"])
            (.arr [.str "t0", .str "t1"]) "").1).length =
          max 1 2 ∧
        elemD (JV.asArr (reorderLike "empty" (.arr [.str "r"])
              (.arr [.str "t0", .str "t1"]) "").1) 1 =
            elemD [.str "t0", .str "t1"] 1 ∧
          joinIdx "" 1 ∈ (reorderLike "empty" (.arr [.str "r"])
              (.arr [.str "t0", .str "t1"]) "").2.extra) :=
  ⟨⟨((reorderLike_keeps_target_only "empty" "").1 [("a", .num 1)]
        [("a", .num 1), ("b", .num 2)]).1,
      ((reorderLike_keeps_target_only "empty" "").1 [("a", .num 1)]
          [("a", .num 1), ("b", .num 2)]).2.2 ("b", .num 2) (by decide)
        (by decide)⟩,
    ((reorderLike_keeps_target_only "empty" "").2 [.str "r"]
        [.str "t0", .str "t1"] 1 (by decide)).1,
    (((reorderLike_keeps_target_only "empty" "").2 [.str "r"]
        [.str "t0", .str "t1"] 1 (by decide)).2 (by decide) (by decide)).1,
    (((reorderLike_keeps_target_only "empty" "").2 [.str "r"]
        [.str "t0", .str "t1"] 1 (by decide)).2 (by decide) (by decide)).2⟩

/-! ## Claim C2 -/

theorem lookupD_cons_self (k : String) (v : JV) (rest : List (String × JV)) :
    lookupD ((k, v) :: rest) k = v := by
  simp [lookupD, List.find?]

theorem lookupD_cons_ne (k k' : String) (v : JV)
    (rest : List (String × JV)) (h : k ≠ k') :
    lookupD ((k, v) :: rest) k' = lookupD rest k' := by
  simp [lookupD, List.find?, h]

theorem hasKey_iff (fs : List (String × JV)) (k : String) :
    hasKey fs k = true ↔ k ∈ fs.map Prod.fst := by
  simp [hasKey, List.any_eq_true]

theorem hasKey_append_left (l1 l2 : List (String × JV)) (k : String)
    (h : hasKey l1 k = true) : hasKey (l1 ++ l2) k = true := by
  rw [hasKey_iff] at h ⊢
  simp [h]

theorem lookupD_append_left (l1 l2 : List (String × JV)) (k : String)
    (h : hasKey l1 k = true) :
    lookupD (l1 ++ l2) k = lookupD l1 k := by
  induction l1 with
  | nil => simp [hasKey] at h
  | cons kv rest ih =>
      obtain ⟨k', v'⟩ := kv
      by_cases he : k' = k
      · subst he
        simp [lookupD_cons_self]
      · rw [List.cons_append, lookupD_cons_ne k' k v' _ he,
          lookupD_cons_ne k' k v' rest he]
        apply ih
        rw [hasKey_iff] at h ⊢
        simp only [List.map_cons, List.mem_cons] at h
        rcases h with h | h
        · exact absurd h.symm he
        · exact h

theorem missingLeaf_ne_undef (mode : String) (l : JV)
    (h : l ≠ JV.undef) : missingLeaf mode l ≠ JV.undef := by
  rw [missingLeaf]
  split <;> simp
  split <;> simp [h]

theorem reorderLike_out_ne_undef_of_container (mode : String) (r t : JV)
    (p : String) (h : r.isContainer = true) :
    (reorderLike mode r t p).1 ≠ JV.undef := by
  cases r <;> simp [JV.isContainer, JV.isObject, JV.isArrV] at h <;>
    simp [reorderLike_arr, reorderLike_obj]

theorem lookupD_WFopt (fs : List (String × JV)) (k : String)
    (h : ∀ kv ∈ fs, WF kv.2 = true) :
    WF (lookupD fs k) = true ∨ lookupD fs k = JV.undef := by
  rw [lookupD]
  rcases hf : fs.find? (fun kv => kv.1 = k) with _ | kv
  · right
    rw [hf]
  · left
    rw [hf]
    exact h kv (List.mem_of_find?_eq_some hf)

theorem WF_ne_undef (x : JV) (h : WF x = true) : x ≠ JV.undef := by
  intro he
  subst he
  rw [WF] at h
  exact Bool.false_ne_true h

theorem container_ne_undef (r : JV) (h : r.isContainer = true) :
    r ≠ JV.undef := by
  cases r <;> simp [JV.isContainer, JV.isObject, JV.isArrV] at h ⊢

theorem reorderArrLoop_nil_nil (mode p : String) (i : Nat) :
    reorderArrLoop mode [] [] p i = ([], ⟨[], []⟩) := by
  rw [reorderArrLoop]

theorem reorderArrLoop_cons_nil_cont (mode p : String) (r : JV)
    (rs : List JV) (i : Nat) (hc : r.isContainer = true) :
    reorderArrLoop mode (r :: rs) [] p i =
      ((reorderLike mode r .undef (joinIdx p i)).1 ::
          (reorderArrLoop mode rs [] p (i + 1)).1,
        ⟨(reorderLike mode r .undef (joinIdx p i)).2.missing ++
            joinIdx p i :: (reorderArrLoop mode rs [] p (i + 1)).2.missing,
          (reorderLike mode r .undef (joinIdx p i)).2.extra ++
            (reorderArrLoop mode rs [] p (i + 1)).2.extra⟩) := by
  rw [reorderArrLoop]
  simp [hc]

theorem reorderArrLoop_cons_nil_leaf (mode p : String) (r : JV)
    (rs : List JV) (i : Nat) (hc : r.isContainer = false) :
    reorderArrLoop mode (r :: rs) [] p i =
      (missingLeaf mode r :: (reorderArrLoop mode rs [] p (i + 1)).1,
        ⟨joinIdx p i :: (reorderArrLoop mode rs [] p (i + 1)).2.missing,
          (reorderArrLoop mode rs [] p (i + 1)).2.extra⟩) := by
  rw [reorderArrLoop]
  simp [hc]

theorem reorderArrLoop_cons_cons_cont (mode p : String) (r t : JV)
    (rs ts : List JV) (i : Nat) (hrne : r ≠ JV.undef) (htne : t ≠ JV.undef)
    (hc : r.isContainer = true) :
    reorderArrLoop mode (r :: rs) (t :: ts) p i =
      ((reorderLike mode r t (joinIdx p i)).1 ::
          (reorderArrLoop mode rs ts p (i + 1)).1,
        ⟨(reorderLike mode r t (joinIdx p i)).2.missing ++
            (reorderArrLoop mode rs ts p (i + 1)).2.missing,
          (reorderLike mode r t (joinIdx p i)).2.extra ++
            (reorderArrLoop mode rs ts p (i + 1)).2.extra⟩) := by
  rw [reorderArrLoop]
  simp [hrne, htne, hc]

theorem reorderArrLoop_cons_cons_leaf (mode p : String) (r t : JV)
    (rs ts : List JV) (i : Nat) (hrne : r ≠ JV.undef) (htne : t ≠ JV.undef)
    (hc : r.isContainer = false) :
    reorderArrLoop mode (r :: rs) (t :: ts) p i =
      (t :: (reorderArrLoop mode rs ts p (i + 1)).1,
        (reorderArrLoop mode rs ts p (i + 1)).2) := by
  rw [reorderArrLoop]
  simp [hrne, htne, hc]

theorem reorderObjRefLoop_nil (mode p : String)
    (tgtFs : List (String × JV)) :
    reorderObjRefLoop mode [] tgtFs p = ([], ⟨[], []⟩) := by
  rw [reorderObjRefLoop]

theorem reorderObjRefLoop_cons_present_cont (mode p : String) (k : String)
    (rv : JV) (rest tgtFs : List (String × JV))
    (h1 : hasKey tgtFs k = true) (hc : rv.isContainer = true) :
    reorderObjRefLoop mode ((k, rv) :: rest) tgtFs p =
      ((k, (reorderLike mode rv (lookupD tgtFs k) (joinKey p k)).1) ::
          (reorderObjRefLoop mode rest tgtFs p).1,
        ⟨(reorderLike mode rv (lookupD tgtFs k) (joinKey p k)).2.missing ++
            (reorderObjRefLoop mode rest tgtFs p).2.missing,
          (reorderLike mode rv (lookupD tgtFs k) (joinKey p k)).2.extra ++
            (reorderObjRefLoop mode rest tgtFs p).2.extra⟩) := by
  rw [reorderObjRefLoop]
  simp [h1, hc]

theorem reorderObjRefLoop_cons_present_leaf (mode p : String) (k : String)
    (rv : JV) (rest tgtFs : List (String × JV))
    (h1 : hasKey tgtFs k = true) (hc : rv.isContainer = false) :
    reorderObjRefLoop mode ((k, rv) :: rest) tgtFs p =
      ((k, lookupD tgtFs k) :: (reorderObjRefLoop mode rest tgtFs p).1,
        (reorderObjRefLoop mode rest tgtFs p).2) := by
  rw [reorderObjRefLoop]
  simp [h1, hc]

theorem reorderObjRefLoop_cons_absent_cont (mode p : String) (k : String)
    (rv : JV) (rest tgtFs : List (String × JV))
    (h1 : hasKey tgtFs k = false) (hc : rv.isContainer = true) :
    reorderObjRefLoop mode ((k, rv) :: rest) tgtFs p =
      ((k, (reorderLike mode rv .undef (joinKey p k)).1) ::
          (reorderObjRefLoop mode rest tgtFs p).1,
        ⟨(reorderLike mode rv .undef (joinKey p k)).2.missing ++
            joinKey p k :: (reorderObjRefLoop mode rest tgtFs p).2.missing,
          (reorderLike mode rv .undef (joinKey p k)).2.extra ++
            (reorderObjRefLoop mode rest tgtFs p).2.extra⟩) := by
  rw [reorderObjRefLoop]
  simp [h1, hc]

theorem reorderObjRefLoop_cons_absent_leaf (mode p : String) (k : String)
    (rv : JV) (rest tgtFs : List (String × JV))
    (h1 : hasKey tgtFs k = false) (hc : rv.isContainer = false) :
    reorderObjRefLoop mode ((k, rv) :: rest) tgtFs p =
      ((k, missingLeaf mode rv) :: (reorderObjRefLoop mode rest tgtFs p).1,
        ⟨joinKey p k :: (reorderObjRefLoop mode rest tgtFs p).2.missing,
          (reorderObjRefLoop mode rest tgtFs p).2.extra⟩) := by
  rw [reorderObjRefLoop]
  simp [h1, hc]

theorem JV.asArr_arr (xs : List JV) : JV.asArr (.arr xs) = xs := rfl

theorem JV.asObj_obj (fs : List (String × JV)) :
    JV.asObj (.obj fs) = fs := rfl

theorem reorderLike_idem_of_leaf (mode : String) (r t : JV) (p : String)
    (hrc : r.isContainer = false) (hru : r ≠ JV.undef) :
    reorderLike mode r (reorderLike mode r t p).1 p =
      ((reorderLike mode r t p).1,
        ⟨[], (reorderLike mode r t p).2.extra⟩) := by
  by_cases htu : t = JV.undef
  · subst htu
    rw [reorderLike_leaf mode r .undef p hrc, if_pos rfl]
    rw [reorderLike_leaf mode r (missingLeaf mode r) p hrc]
    simp [missingLeaf_ne_undef mode r hru]
  · rw [reorderLike_leaf mode r t p hrc, if_neg htu]
    rw [reorderLike_leaf mode r t p hrc, if_neg htu]

mutual

theorem reorderLike_idem_aux (mode : String) (r t : JV) (p : String)
    (hr : WF r = true) (ht : WF t = true ∨ t = JV.undef) :
    reorderLike mode r (reorderLike mode r t p).1 p =
      ((reorderLike mode r t p).1,
        ⟨[], (reorderLike mode r t p).2.extra⟩) := by
  match r with
  | .arr xs =>
      have hxs : ∀ x ∈ xs, WF x = true := (WF_arr_iff xs).mp hr
      have hts : ∀ x ∈ JV.asArr t, WF x = true := by
        rcases ht with ht | rfl
        · cases t <;> simp [JV.asArr]
          exact (WF_arr_iff _).mp ht
        · simp [JV.asArr]
      rw [reorderLike_arr mode xs t p]
      dsimp only
      rw [reorderLike_arr mode xs
        (.arr (reorderArrLoop mode xs (JV.asArr t) p 0).1) p]
      rw [JV.asArr_arr]
      rw [reorderArrLoop_idem_aux mode xs (JV.asArr t) p 0 hxs hts]
  | .obj fs =>
      obtain ⟨hnd, hvals⟩ := (WF_obj_iff fs).mp hr
      have htv : ∀ kv ∈ JV.asObj t, WF kv.2 = true := by
        rcases ht with ht | rfl
        · cases t <;> simp [JV.asObj]
          exact fun a b hm => ((WF_obj_iff _).mp ht).2 (a, b) hm
        · simp [JV.asObj]
      have hkeys1 := reorderObjRefLoop_keys mode fs (JV.asObj t) p
      have hagree : ∀ k ∈ fs.map Prod.fst,
          hasKey ((reorderObjRefLoop mode fs (JV.asObj t) p).1 ++
              (JV.asObj t).filter (fun kv => !(hasKey fs kv.1))) k = true ∧
          lookupD ((reorderObjRefLoop mode fs (JV.asObj t) p).1 ++
              (JV.asObj t).filter (fun kv => !(hasKey fs kv.1))) k =
            lookupD (reorderObjRefLoop mode fs (JV.asObj t) p).1 k := by
        intro k hk
        have hk1 : hasKey (reorderObjRefLoop mode fs (JV.asObj t) p).1 k =
            true := by
          rw [hasKey_iff, hkeys1]
          exact hk
        exact ⟨hasKey_append_left _ _ _ hk1, lookupD_append_left _ _ _ hk1⟩
      have hloop2 := reorderObjRefLoop_idem_aux mode fs (JV.asObj t)
        ((reorderObjRefLoop mode fs (JV.asObj t) p).1 ++
          (JV.asObj t).filter (fun kv => !(hasKey fs kv.1))) p
        hnd hvals htv hagree
      have hE1 : (reorderObjRefLoop mode fs (JV.asObj t) p).1.filter
          (fun kv => !(hasKey fs kv.1)) = [] := by
        rw [List.filter_eq_nil_iff]
        intro kv hm
        have hkin : kv.1 ∈ fs.map Prod.fst := by
          rw [← hkeys1]
          exact List.mem_map_of_mem Prod.fst hm
        simp [(hasKey_iff fs kv.1).mpr hkin]
      have hE2 : ((JV.asObj t).filter (fun kv => !(hasKey fs kv.1))).filter
          (fun kv => !(hasKey fs kv.1)) =
          (JV.asObj t).filter (fun kv => !(hasKey fs kv.1)) :=
        List.filter_eq_self.mpr (fun kv hm => (List.mem_filter.mp hm).2)
      rw [reorderLike_obj mode fs t p]
      dsimp only
      rw [reorderLike_obj mode fs
        (.obj ((reorderObjRefLoop mode fs (JV.asObj t) p).1 ++
          (JV.asObj t).filter (fun kv => !(hasKey fs kv.1)))) p]
      rw [JV.asObj_obj]
      rw [List.filter_append, hE1, hE2, List.nil_append, hloop2]
  | .null =>
      exact reorderLike_idem_of_leaf mode .null t p (by rfl) (by simp)
  | .undef =>
      rw [WF] at hr
      exact absurd hr (by simp)
  | .str s =>
      exact reorderLike_idem_of_leaf mode (.str s) t p (by rfl) (by simp)
  | .num n =>
      exact reorderLike_idem_of_leaf mode (.num n) t p (by rfl) (by simp)
  | .bool b =>
      exact reorderLike_idem_of_leaf mode (.bool b) t p (by rfl) (by simp)
termination_by sizeOf r + sizeOf t + 1
decreasing_by
  all_goals simp_wf
  · have := sizeOf_asArr_le t
    omega
  · have := sizeOf_asObj_le t
    omega

theorem reorderArrLoop_idem_aux (mode : String) (rs ts : List JV)
    (p : String) (i : Nat) (hrs : ∀ x ∈ rs, WF x = true)
    (hts : ∀ x ∈ ts, WF x = true) :
    reorderArrLoop mode rs (reorderArrLoop mode rs ts p i).1 p i =
      ((reorderArrLoop mode rs ts p i).1,
        ⟨[], (reorderArrLoop mode rs ts p i).2.extra⟩) := by
  match rs, ts with
  | [], [] =>
      rw [reorderArrLoop_nil_nil]
      dsimp only
      rw [reorderArrLoop_nil_nil]
  | [], t :: ts' =>
      have htne : t ≠ JV.undef := WF_ne_undef t (hts t (by simp))
      rw [reorderArrLoop_nil_cons mode p t ts' i htne]
      dsimp only
      rw [reorderArrLoop_nil_cons mode p t
        (reorderArrLoop mode [] ts' p (i + 1)).1 i htne]
      rw [reorderArrLoop_idem_aux mode [] ts' p (i + 1) (by simp)
        (fun x hx => hts x (by simp [hx]))]
  | r :: rs', [] =>
      have hrw : WF r = true := hrs r (by simp)
      have hrs' : ∀ x ∈ rs', WF x = true := fun x hx => hrs x (by simp [hx])
      by_cases hc : r.isContainer
      · rw [reorderArrLoop_cons_nil_cont mode p r rs' i hc]
        dsimp only
        rw [reorderArrLoop_cons_cons_cont mode p r
          (reorderLike mode r .undef (joinIdx p i)).1 rs'
          (reorderArrLoop mode rs' [] p (i + 1)).1 i
          (container_ne_undef r hc)
          (reorderLike_out_ne_undef_of_container mode r .undef
            (joinIdx p i) hc) hc]
        rw [reorderLike_idem_aux mode r .undef (joinIdx p i) hrw
          (Or.inr rfl)]
        rw [reorderArrLoop_idem_aux mode rs' [] p (i + 1) hrs' (by simp)]
        simp
      · have hcf : r.isContainer = false := by simpa using hc
        have hru : r ≠ JV.undef := WF_ne_undef r hrw
        rw [reorderArrLoop_cons_nil_leaf mode p r rs' i hcf]
        dsimp only
        rw [reorderArrLoop_cons_cons_leaf mode p r (missingLeaf mode r) rs'
          (reorderArrLoop mode rs' [] p (i + 1)).1 i hru
          (missingLeaf_ne_undef mode r hru) hcf]
        rw [reorderArrLoop_idem_aux mode rs' [] p (i + 1) hrs' (by simp)]
  | r :: rs', t :: ts' =>
      have hrw : WF r = true := hrs r (by simp)
      have hrs' : ∀ x ∈ rs', WF x = true := fun x hx => hrs x (by simp [hx])
      have htw : WF t = true := hts t (by simp)
      have hts' : ∀ x ∈ ts', WF x = true := fun x hx => hts x (by simp [hx])
      have hru : r ≠ JV.undef := WF_ne_undef r hrw
      have htu : t ≠ JV.undef := WF_ne_undef t htw
      by_cases hc : r.isContainer
      · rw [reorderArrLoop_cons_cons_cont mode p r t rs' ts' i hru htu hc]
        dsimp only
        rw [reorderArrLoop_cons_cons_cont mode p r
          (reorderLike mode r t (joinIdx p i)).1 rs'
          (reorderArrLoop mode rs' ts' p (i + 1)).1 i hru
          (reorderLike_out_ne_undef_of_container mode r t (joinIdx p i) hc)
          hc]
        rw [reorderLike_idem_aux mode r t (joinIdx p i) hrw (Or.inl htw)]
        rw [reorderArrLoop_idem_aux mode rs' ts' p (i + 1) hrs' hts']
        simp
      · have hcf : r.isContainer = false := by simpa using hc
        rw [reorderArrLoop_cons_cons_leaf mode p r t rs' ts' i hru htu hcf]
        dsimp only
        rw [reorderArrLoop_cons_cons_leaf mode p r t rs'
          (reorderArrLoop mode rs' ts' p (i + 1)).1 i hru htu hcf]
        rw [reorderArrLoop_idem_aux mode rs' ts' p (i + 1) hrs' hts']
termination_by sizeOf rs + sizeOf ts
decreasing_by
  all_goals simp_wf
  all_goals try simp only [List.cons.sizeOf_spec, JV.undef.sizeOf_spec,
    List.nil.sizeOf_spec]
  all_goals first
    | (have h1 := one_le_sizeOf_list rs'; omega)
    | (have h1 := one_le_sizeOf_list ts'; omega)
    | omega

theorem reorderObjRefLoop_idem_aux (mode : String)
    (refFs tgtFs tgt2 : List (String × JV)) (p : String)
    (hnd : (refFs.map Prod.fst).Nodup)
    (hrv : ∀ kv ∈ refFs, WF kv.2 = true)
    (htv : ∀ kv ∈ tgtFs, WF kv.2 = true)
    (hagree : ∀ k ∈ refFs.map Prod.fst,
      hasKey tgt2 k = true ∧
      lookupD tgt2 k = lookupD (reorderObjRefLoop mode refFs tgtFs p).1 k) :
    reorderObjRefLoop mode refFs tgt2 p =
      ((reorderObjRefLoop mode refFs tgtFs p).1,
        ⟨[], (reorderObjRefLoop mode refFs tgtFs p).2.extra⟩) := by
  match refFs with
  | [] =>
      rw [reorderObjRefLoop_nil, reorderObjRefLoop_nil]
  | (k, rv) :: rest =>
      have hrw : WF rv = true := hrv (k, rv) (by simp)
      have hrest : ∀ kv ∈ rest, WF kv.2 = true :=
        fun kv hkv => hrv kv (by simp [hkv])
      have hndk : k ∉ rest.map Prod.fst := by
        simp only [List.map_cons, List.nodup_cons] at hnd
        exact hnd.1
      have hndrest : (rest.map Prod.fst).Nodup := by
        simp only [List.map_cons, List.nodup_cons] at hnd
        exact hnd.2
      obtain ⟨hk2, hl2⟩ := hagree k (by simp)
      by_cases h1 : hasKey tgtFs k
      · by_cases hc : rv.isContainer
        · have hfirst := reorderObjRefLoop_cons_present_cont mode p k rv
            rest tgtFs h1 hc
          have hagree' : ∀ k' ∈ rest.map Prod.fst,
              hasKey tgt2 k' = true ∧
              lookupD tgt2 k' =
                lookupD (reorderObjRefLoop mode rest tgtFs p).1 k' := by
            intro k' hk'
            obtain ⟨ha, hb⟩ := hagree k' (by simp [hk'])
            refine ⟨ha, ?_⟩
            rw [hb, hfirst]
            dsimp only
            rw [lookupD_cons_ne k k' _ _ (fun he => hndk (he ▸ hk'))]
          have hlk : lookupD tgt2 k =
              (reorderLike mode rv (lookupD tgtFs k) (joinKey p k)).1 := by
            rw [hl2, hfirst]
            dsimp only
            rw [lookupD_cons_self]
          rw [hfirst]
          dsimp only
          rw [reorderObjRefLoop_cons_present_cont mode p k rv rest tgt2
            hk2 hc, hlk]
          rw [reorderLike_idem_aux mode rv (lookupD tgtFs k) (joinKey p k)
            hrw (lookupD_WFopt tgtFs k htv)]
          rw [reorderObjRefLoop_idem_aux mode rest tgtFs tgt2 p hndrest
            hrest htv hagree']
          simp
        · have hcf : rv.isContainer = false := by simpa using hc
          have hfirst := reorderObjRefLoop_cons_present_leaf mode p k rv
            rest tgtFs h1 hcf
          have hagree' : ∀ k' ∈ rest.map Prod.fst,
              hasKey tgt2 k' = true ∧
              lookupD tgt2 k' =
                lookupD (reorderObjRefLoop mode rest tgtFs p).1 k' := by
            intro k' hk'
            obtain ⟨ha, hb⟩ := hagree k' (by simp [hk'])
            refine ⟨ha, ?_⟩
            rw [hb, hfirst]
            dsimp only
            rw [lookupD_cons_ne k k' _ _ (fun he => hndk (he ▸ hk'))]
          have hlk : lookupD tgt2 k = lookupD tgtFs k := by
            rw [hl2, hfirst]
            dsimp only
            rw [lookupD_cons_self]
          rw [hfirst]
          dsimp only
          rw [reorderObjRefLoop_cons_present_leaf mode p k rv rest tgt2
            hk2 hcf, hlk]
          rw [reorderObjRefLoop_idem_aux mode rest tgtFs tgt2 p hndrest
            hrest htv hagree']
      · have h1f : hasKey tgtFs k = false := by simpa using h1
        by_cases hc : rv.isContainer
        · have hfirst := reorderObjRefLoop_cons_absent_cont mode p k rv
            rest tgtFs h1f hc
          have hagree' : ∀ k' ∈ rest.map Prod.fst,
              hasKey tgt2 k' = true ∧
              lookupD tgt2 k' =
                lookupD (reorderObjRefLoop mode rest tgtFs p).1 k' := by
            intro k' hk'
            obtain ⟨ha, hb⟩ := hagree k' (by simp [hk'])
            refine ⟨ha, ?_⟩
            rw [hb, hfirst]
            dsimp only
            rw [lookupD_cons_ne k k' _ _ (fun he => hndk (he ▸ hk'))]
          have hlk : lookupD tgt2 k =
              (reorderLike mode rv .undef (joinKey p k)).1 := by
            rw [hl2, hfirst]
            dsimp only
            rw [lookupD_cons_self]
          rw [hfirst]
          dsimp only
          rw [reorderObjRefLoop_cons_present_cont mode p k rv rest tgt2
            hk2 hc, hlk]
          rw [reorderLike_idem_aux mode rv .undef (joinKey p k) hrw
            (Or.inr rfl)]
          rw [reorderObjRefLoop_idem_aux mode rest tgtFs tgt2 p hndrest
            hrest htv hagree']
          simp
        · have hcf : rv.isContainer = false := by simpa using hc
          have hfirst := reorderObjRefLoop_cons_absent_leaf mode p k rv
            rest tgtFs h1f hcf
          have hagree' : ∀ k' ∈ rest.map Prod.fst,
              hasKey tgt2 k' = true ∧
              lookupD tgt2 k' =
                lookupD (reorderObjRefLoop mode rest tgtFs p).1 k' := by
            intro k' hk'
            obtain ⟨ha, hb⟩ := hagree k' (by simp [hk'])
            refine ⟨ha, ?_⟩
            rw [hb, hfirst]
            dsimp only
            rw [lookupD_cons_ne k k' _ _ (fun he => hndk (he ▸ hk'))]
          have hlk : lookupD tgt2 k = missingLeaf mode rv := by
            rw [hl2, hfirst]
            dsimp only
            rw [lookupD_cons_self]
          rw [hfirst]
          dsimp only
          rw [reorderObjRefLoop_cons_present_leaf mode p k rv rest tgt2
            hk2 hcf, hlk]
          rw [reorderObjRefLoop_idem_aux mode rest tgtFs tgt2 p hndrest
            hrest htv hagree']
termination_by sizeOf refFs + sizeOf tgtFs
decreasing_by
  all_goals simp_wf
  all_goals try simp only [List.cons.sizeOf_spec, JV.undef.sizeOf_spec,
    List.nil.sizeOf_spec, Prod.mk.sizeOf_spec]
  all_goals first
    | (have h1 := sizeOf_lookupD_le tgtFs k
       have h2 := one_le_sizeOf_list rest; omega)
    | (have h2 := one_le_sizeOf_list rest; omega)
    | omega

end

/-- C2: merging twice with the same reference is idempotent.  For
    well-formed trees (no `undefined`, no duplicate keys — the image of
    the YAML codec), re-merging the merge output against the same
    reference returns the output tree unchanged, appends nothing to the
    `missing` report, and appends exactly the same `extra` paths as the
    first merge (the `Stats` returned by the embedding are the paths the
    call itself pushes). -/
theorem reorderLike_idempotent (mode : String) (r t : JV) (p : String)
    (hr : WF r = true) (ht : WF t = true) :
    reorderLike mode r (reorderLike mode r t p).1 p =
      ((reorderLike mode r t p).1,
        ⟨[], (reorderLike mode r t p).2.extra⟩) :=
  reorderLike_idem_aux mode r t p hr (Or.inl ht)

/-- Witness for C2: reference `{a: "x", b: [1, 2]}` against target
    `{b: [true], extra: null}` under the default mode. -/
theorem reorderLike_idempotent_witness :
    WF (.obj [("a", .str "x"), ("b", .arr [.num 1, .num 2])]) = true ∧
      WF (.obj [("b", .arr [.bool true]), ("extra", .null)]) = true ∧
      reorderLike "empty" (.obj [("a", .str "x"), ("b", .arr [.num 1, .num 2])])
          (reorderLike "empty"
            (.obj [("a", .str "x"), ("b", .arr [.num 1, .num 2])])
            (.obj [("b", .arr [.bool true]), ("extra", .null)]) "").1 "" =
        ((reorderLike "empty"
            (.obj [("a", .str "x"), ("b", .arr [.num 1, .num 2])])
            (.obj [("b", .arr [.bool true]), ("extra", .null)]) "").1,
          ⟨[], (reorderLike "empty"
            (.obj [("a", .str "x"), ("b", .arr [.num 1, .num 2])])
            (.obj [("b", .arr [.bool true]), ("extra", .null)]) "").2.extra⟩) :=
  ⟨by decide, by decide,
    reorderLike_idempotent "empty"
      (.obj [("a", .str "x"), ("b", .arr [.num 1, .num 2])])
      (.obj [("b", .arr [.bool true]), ("extra", .null)]) ""
      (by decide) (by decide)⟩
